import Mathlib

/-!
Verification development for the weather-forecast client application.

The JavaScript sources are shallowly embedded as executable Lean
definitions: strings are lists of characters, JS numbers used as
timestamps are naturals, JS floating-point temperatures are rationals,
the two `Map` objects of the request coordinator are association lists,
and the asynchronous `handleSearch` flow is split at its suspension
points into a synchronous prefix and explicit settle steps.
-/

/-! ## Character classes (from the regexes in `LocationService.js`)

`isJsSpace` is the JS `\s` class (also the class used by `String.trim`),
`isPunct` is the class `[-'.]`, and `isWordChar` is the JS `\w` class
`[A-Za-z0-9_]`.  Characters are compared through their code points. -/

def isJsSpace (c : Char) : Bool :=
  c.toNat = 32 || c.toNat = 9 || c.toNat = 10 || c.toNat = 11 ||
  c.toNat = 12 || c.toNat = 13 || c.toNat = 0xA0 || c.toNat = 0x1680 ||
  (0x2000 ≤ c.toNat && c.toNat ≤ 0x200A) || c.toNat = 0x2028 ||
  c.toNat = 0x2029 || c.toNat = 0x202F || c.toNat = 0x205F ||
  c.toNat = 0x3000 || c.toNat = 0xFEFF

def isPunct (c : Char) : Bool :=
  c.toNat = 45 || c.toNat = 39 || c.toNat = 46

def isWordChar (c : Char) : Bool :=
  (97 ≤ c.toNat && c.toNat ≤ 122) || (65 ≤ c.toNat && c.toNat ≤ 90) ||
  (48 ≤ c.toNat && c.toNat ≤ 57) || c.toNat = 95

/-- ASCII upper-casing; this is what `String.prototype.toUpperCase`
does on every JS `\w` character, the only characters the source ever
upper-cases (`formatLocationName` applies it to `\b\w` matches). -/
def jsToUpper (c : Char) : Char :=
  if 97 ≤ c.toNat ∧ c.toNat ≤ 122 then Char.ofNat (c.toNat - 32) else c

/-- ASCII lower-casing; what `String.prototype.toLowerCase` does on the
characters admitted by the validator. -/
def jsToLower (c : Char) : Char :=
  if 65 ≤ c.toNat ∧ c.toNat ≤ 90 then Char.ofNat (c.toNat + 32) else c

/-- `String.prototype.trim`: drop whitespace from both ends. -/
def jsTrim (l : List Char) : List Char :=
  ((l.dropWhile isJsSpace).reverse.dropWhile isJsSpace).reverse

/-! ## `LocationService.validateLocationInput` -/

/-- The character class of the regex `/^[a-zA-Z\s\-'.]+$/`. -/
def isValidCityChar (c : Char) : Bool :=
  (97 ≤ c.toNat && c.toNat ≤ 122) || (65 ≤ c.toNat && c.toNat ≤ 90) ||
  isJsSpace c || isPunct c

/-- `/p{2,}/` for a character class `p`: two adjacent characters of the
class occur somewhere in the list. -/
def hasAdjPair (p : Char → Bool) : List Char → Bool
  | a :: b :: rest => (p a && p b) || hasAdjPair p (b :: rest)
  | _ => false

structure ValidationResult where
  isValid : Bool
  message : String
deriving DecidableEq, Repr

/-- `LocationService.validateLocationInput` (the `typeof` guard is
vacuous in the embedding, where the argument is always a string;
`!input` is the empty-string test). -/
def validateLocationInput (input : String) : ValidationResult :=
  if input.data = [] then
    { isValid := false, message := "Please enter a city name" }
  else
    let trimmedInput := jsTrim input.data
    if trimmedInput.length = 0 then
      { isValid := false, message := "Please enter a city name" }
    else if trimmedInput.length < 2 then
      { isValid := false
        message := "City name must be at least 2 characters long" }
    else if 100 < trimmedInput.length then
      { isValid := false, message := "City name is too long" }
    else if ¬ trimmedInput.all isValidCityChar then
      { isValid := false
        message := "City name can only contain letters, spaces, hyphens, apostrophes, and periods" }
    else if hasAdjPair isJsSpace trimmedInput || hasAdjPair isPunct trimmedInput then
      { isValid := false, message := "Invalid city name format" }
    else
      { isValid := true, message := "Valid city name" }

/-! ## `LocationService.formatLocationName`

The pipeline of the source, stage by stage:
trim, `replace(/\s+/g, ' ')`, `replace(/[-'\.]+/g, m => m[0])`,
`replace(/\b\w/g, c => c.toUpperCase())`, then the three word
replacements `\bSt\b → St.`, `\bMt\b → Mt.`, `\bFt\b → Ft.`.
The run-collapsing and boundary scans are written with an explicit
"previous character" flag, exactly mirroring the global regex scans. -/

/-- `replace(/\s+/g, ' ')`: each maximal whitespace run becomes one
space.  `inRun` records whether the previous character was whitespace. -/
def collapseSpacesAux : Bool → List Char → List Char
  | _, [] => []
  | inRun, c :: rest =>
    if isJsSpace c then
      if inRun then collapseSpacesAux true rest
      else ' ' :: collapseSpacesAux true rest
    else c :: collapseSpacesAux false rest

def collapseSpaces (l : List Char) : List Char := collapseSpacesAux false l

/-- `replace(/[-'\.]+/g, m => m[0])`: each maximal punctuation run is
replaced by its first character. -/
def collapsePunctAux : Bool → List Char → List Char
  | _, [] => []
  | inRun, c :: rest =>
    if isPunct c then
      if inRun then collapsePunctAux true rest
      else c :: collapsePunctAux true rest
    else c :: collapsePunctAux false rest

def collapsePunct (l : List Char) : List Char := collapsePunctAux false l

/-- `replace(/\b\w/g, c => c.toUpperCase())`: upper-case every word
character whose predecessor is not a word character (`prevWord` is the
word-ness of the previous character, `false` at the start). -/
def upperBoundaryAux : Bool → List Char → List Char
  | _, [] => []
  | prevWord, c :: rest =>
    if isWordChar c ∧ ¬ prevWord then jsToUpper c :: upperBoundaryAux true rest
    else c :: upperBoundaryAux (isWordChar c) rest

def upperBoundary (l : List Char) : List Char := upperBoundaryAux false l

def headIsWord : List Char → Bool
  | [] => false
  | c :: _ => isWordChar c

/-- One global replacement `\bxy\b → xy.` (used with `St`, `Mt`, `Ft`):
at a position whose previous character is not a word character, if the
two next characters are `x`, `y` and the character after them is not a
word character, a period is inserted after them and the scan resumes
after the match. -/
def expandWordAux (x y : Char) : Bool → List Char → List Char
  | _, [] => []
  | _, [c] => [c]
  | prevWord, c₁ :: c₂ :: rest =>
    if ¬ prevWord ∧ c₁ = x ∧ c₂ = y ∧ ¬ headIsWord rest then
      c₁ :: c₂ :: '.' :: expandWordAux x y true rest
    else
      c₁ :: expandWordAux x y (isWordChar c₁) (c₂ :: rest)

def expandWord (x y : Char) (l : List Char) : List Char :=
  expandWordAux x y false l

/-- Whether the scan of `expandWordAux` would match anywhere. -/
def hasWordTokenAux (x y : Char) : Bool → List Char → Bool
  | _, [] => false
  | _, [_] => false
  | prevWord, c₁ :: c₂ :: rest =>
    (¬ prevWord ∧ c₁ = x ∧ c₂ = y ∧ ¬ headIsWord rest : Bool) ||
      hasWordTokenAux x y (isWordChar c₁) (c₂ :: rest)

def hasWordToken (x y : Char) (l : List Char) : Bool :=
  hasWordTokenAux x y false l

/-- The four normalization stages that precede the abbreviation
replacements in `formatLocationName`. -/
def preFormat (name : String) : List Char :=
  upperBoundary (collapsePunct (collapseSpaces (jsTrim name.data)))

/-- `LocationService.formatLocationName`. -/
def formatLocationName (name : String) : String :=
  if name.data = [] then ""
  else
    String.mk (expandWord 'F' 't' (expandWord 'M' 't' (expandWord 'S' 't' (preFormat name))))

/-! ## The cache key of the search pipeline

`SearchInterface.handleSearch` validates the raw input, formats it with
`formatLocationName`, and hands the formatted name to
`WeatherApp.handleSearch`, which derives the cache / in-flight key as
`cityName.toLowerCase().trim()`. -/

/-- `cityName.toLowerCase().trim()` from `WeatherApp.handleSearch`. -/
def normalizedCityName (s : String) : String :=
  String.mk (jsTrim (s.data.map jsToLower))

/-- The key a raw query is cached and de-duplicated under, following the
`SearchInterface.handleSearch` → `WeatherApp.handleSearch` pipeline;
`none` when validation rejects the query before any lookup. -/
def searchPipelineKey (raw : String) : Option String :=
  if (validateLocationInput raw).isValid then
    some (normalizedCityName (formatLocationName raw))
  else none

/-! ## Error classification

`JsError` carries the JS error properties the two handlers inspect:
`name`, `message`, the HTTP `status` set by `makeApiRequest` on non-ok
responses, and the `type` property (`errType` here) set by the timeout
branch of `makeApiRequest` and by `handleApiError`. -/

structure JsError where
  name : String
  message : String
  status : Option Nat
  errType : Option String
deriving DecidableEq, Repr

structure ErrorResult where
  etype : String
  message : String
  showRetry : Bool
deriving DecidableEq, Repr

/-- Contiguous-substring test on character lists. -/
def listIncludes (sub : List Char) : List Char → Bool
  | [] => sub.isEmpty
  | c :: rest => sub.isPrefixOf (c :: rest) || listIncludes sub rest

/-- `error.message.includes(sub)`. -/
def msgIncludes (e : JsError) (sub : String) : Bool :=
  listIncludes sub.data e.message.data

/-- JS truthiness of `error.status`. -/
def statusTruthy : Option Nat → Bool
  | some s => s != 0
  | none => false

/-- `error.status >= 500` (false when `status` is `undefined`, as the
JS comparison with `undefined` is). -/
def statusGe500 (e : JsError) : Bool :=
  match e.status with
  | some s => 500 ≤ s
  | none => false

/-- `ErrorHandler.handleWeatherError` (`src/unnamed/part_002`): the
branch cascade, first match wins; the logging side effect is dropped. -/
def handleWeatherError (e : JsError) : ErrorResult :=
  if e.name = "TypeError" || msgIncludes e "fetch" then
    { etype := "network"
      message := "Connection error. Please check your internet connection and try again."
      showRetry := true }
  else if e.name = "TimeoutError" || msgIncludes e "timeout" then
    { etype := "timeout"
      message := "Request timed out. Please try again."
      showRetry := true }
  else if e.status = some 404 || msgIncludes e "not found" then
    { etype := "notfound"
      message := "Location not found. Please check the spelling and try again."
      showRetry := true }
  else if statusGe500 e || msgIncludes e "service unavailable" then
    { etype := "service"
      message := "Weather service is currently unavailable. Please try again later."
      showRetry := true }
  else if e.status = some 401 || msgIncludes e "unauthorized" then
    { etype := "auth"
      message := "Authentication error. Please check API configuration."
      showRetry := false }
  else
    { etype := "unknown"
      message := "An unexpected error occurred. Please try again."
      showRetry := true }

/-- The `switch (error.status)` of `WeatherService.handleApiError`,
returning the user message and error type. -/
def apiErrorSwitch (s : Nat) : String × String :=
  if s = 401 then
    ("Weather service authentication failed. Please check configuration.", "auth")
  else if s = 404 then
    ("Location not found. Please check the spelling and try again.", "not_found")
  else if s = 429 then
    ("Too many requests. Please wait a moment and try again.", "rate_limit")
  else if s = 500 || s = 502 || s = 503 || s = 504 then
    ("Weather service is currently unavailable. Please try again later.", "service_unavailable")
  else
    ("Weather service error. Please try again.", "api_error")

/-- `WeatherService.handleApiError`: wraps the error in a fresh
`new Error(userMessage)` carrying a `type` property; the fresh error has
no `status` property and default name `"Error"`. -/
def handleApiError (e : JsError) : JsError :=
  let p :=
    if e.errType = some "timeout" then
      ("Request timed out. Please try again.", "timeout")
    else if statusTruthy e.status then
      apiErrorSwitch (e.status.getD 0)
    else if msgIncludes e "Failed to fetch" then
      ("Connection error. Please check your internet connection and try again.", "network")
    else
      ("An unexpected error occurred. Please try again.", "unknown")
  { name := "Error", message := p.1, status := none, errType := some p.2 }

/-- The error `makeApiRequest` throws on a non-ok HTTP response:
`new Error("API request failed: " + status)` with `error.status` set. -/
def httpError (s : Nat) : JsError :=
  { name := "Error", message := "API request failed: " ++ toString s
    status := some s, errType := none }

/-- The error `makeApiRequest` throws when the 5000 ms timer aborts the
fetch: `new Error("Request timed out")` with `error.type = "timeout"`. -/
def timeoutAbortError : JsError :=
  { name := "Error", message := "Request timed out", status := none
    errType := some "timeout" }

/-! ## Forecast transformation (`WeatherService`)

Temperatures are embedded as rationals, timestamps as epoch seconds.
The bucket key `dateKey` is the UTC day number `dt / 86400`, which is in
order-preserving bijection with the `YYYY-MM-DD` prefix of
`new Date(dt * 1000).toISOString()` used by the source. -/

/-- `Math.round`: round half toward positive infinity, i.e.
`⌊q + 1/2⌋`, written through integer division so that it evaluates by
kernel reduction; `jsRound_eq_floor` below proves the two forms equal. -/
def jsRound (q : ℚ) : ℤ := (2 * q.num + q.den) / (2 * (q.den : ℤ))

structure Sample where
  dt : Nat
  temp : ℚ
  condition : String
  icon : String
deriving DecidableEq, Repr

structure DayBucket where
  date : Nat
  temps : List ℚ
  conditions : List String
  icons : List String
deriving DecidableEq, Repr

structure ForecastDay where
  date : Nat
  highTemp : ℤ
  lowTemp : ℤ
  condition : String
  icon : String
deriving DecidableEq, Repr

/-- `Object.keys` of a frequency object built by insertion: the distinct
values in order of first occurrence (condition and icon strings are
never integer-like, so JS preserves insertion order). -/
def objectKeys (l : List String) : List String :=
  l.foldl (fun acc c => if c ∈ acc then acc else acc ++ [c]) []

/-- `Object.keys(frequency).reduce((a, b) => frequency[a] > frequency[b] ? a : b)`:
`none` on an empty list, where the JS `reduce` with no initial value
throws. -/
def jsReduceMaxKey (f : String → Nat) : List String → Option String
  | [] => none
  | k :: ks => some (ks.foldl (fun a b => if f a > f b then a else b) k)

/-- `WeatherService.getMostFrequentCondition`. -/
def getMostFrequentCondition (conditions : List String) : Option String :=
  jsReduceMaxKey (fun k => conditions.count k) (objectKeys conditions)

/-- `WeatherService.getMostFrequentIcon`. -/
def getMostFrequentIcon (icons : List String) : Option String :=
  jsReduceMaxKey (fun k => icons.count k) (objectKeys icons)

def sampleDate (s : Sample) : Nat := s.dt / 86400

/-- One step of the grouping loop of `transformForecastData`: append the
sample to its date bucket, creating the bucket at the end on first
sight (object insertion order). -/
def addSample (buckets : List DayBucket) (s : Sample) : List DayBucket :=
  if buckets.any (fun b => b.date = sampleDate s) then
    buckets.map fun b =>
      if b.date = sampleDate s then
        { b with temps := b.temps ++ [s.temp]
                 conditions := b.conditions ++ [s.condition]
                 icons := b.icons ++ [s.icon] }
      else b
  else
    buckets ++ [{ date := sampleDate s, temps := [s.temp]
                  conditions := [s.condition], icons := [s.icon] }]

def groupByDate (samples : List Sample) : List DayBucket :=
  samples.foldl addSample []

/-- The per-day mapping of `transformForecastData`:
`highTemp = Math.round(Math.max(...temps))`,
`lowTemp = Math.round(Math.min(...temps))`; `none` models the throwing
cases (empty bucket), which never arise for buckets built by
`groupByDate`. -/
def bucketToDay (b : DayBucket) : Option ForecastDay :=
  match b.temps, getMostFrequentCondition b.conditions, getMostFrequentIcon b.icons with
  | t :: ts, some c, some i =>
    some { date := b.date, highTemp := jsRound (ts.foldl max t)
           lowTemp := jsRound (ts.foldl min t), condition := c, icon := i }
  | _, _, _ => none

def forecastDays : List DayBucket → Option (List ForecastDay)
  | [] => some []
  | b :: bs =>
    match bucketToDay b, forecastDays bs with
    | some d, some ds => some (d :: ds)
    | _, _ => none

/-- The forecast list produced by `WeatherService.transformForecastData`:
group by calendar date, take the first five buckets, map each to a
`ForecastDay`. -/
def transformForecastList (samples : List Sample) : Option (List ForecastDay) :=
  forecastDays ((groupByDate samples).take 5)

structure Location where
  name : String
  country : String
deriving DecidableEq, Repr

/-- The raw forecast API response: `city` plus the 3-hour sample list. -/
structure ApiForecastResponse where
  cityName : String
  cityCountry : String
  list : List Sample
deriving DecidableEq, Repr

structure ForecastResult where
  location : Location
  forecast : List ForecastDay
deriving DecidableEq, Repr

/-- `WeatherService.transformForecastData`: the forecast list together
with the location taken from `apiResponse.city`. -/
def transformForecastData (resp : ApiForecastResponse) : Option ForecastResult :=
  match transformForecastList resp.list with
  | some f => some { location := { name := resp.cityName, country := resp.cityCountry }
                     forecast := f }
  | none => none

/-! ## Current-weather transformation (`WeatherService`) -/

/-- The fields of the current-weather API response that
`transformCurrentWeatherData` reads. -/
structure ApiCurrentResponse where
  name : String
  sysCountry : String
  temp : ℚ
  weatherMain : String
  weatherDescription : String
  weatherIcon : String
  humidity : Nat
  windSpeed : Option ℚ
deriving DecidableEq, Repr

structure CurrentWeather where
  temperature : ℤ
  condition : String
  description : String
  icon : String
  humidity : Nat
  windSpeed : ℤ
deriving DecidableEq, Repr

structure CurrentResult where
  location : Location
  current : CurrentWeather
deriving DecidableEq, Repr

/-- `WeatherService.transformCurrentWeatherData`.  The wind field is
`Math.round(apiResponse.wind?.speed * 3.6) || 0`: an absent wind object
gives `NaN || 0 = 0`. -/
def transformCurrentWeatherData (resp : ApiCurrentResponse) : CurrentResult :=
  { location := { name := resp.name, country := resp.sysCountry }
    current := { temperature := jsRound resp.temp
                 condition := resp.weatherMain
                 description := resp.weatherDescription
                 icon := resp.weatherIcon
                 humidity := resp.humidity
                 windSpeed := match resp.windSpeed with
                   | some w => jsRound (w * 36 / 10)
                   | none => 0 } }

structure CombinedWeather where
  location : Location
  current : CurrentWeather
  forecast : List ForecastDay
deriving DecidableEq, Repr

/-- `WeatherApp.fetchWeatherData`, after both awaited calls have
resolved: merge the two results, taking `location` and `current` from
the current-weather result and `forecast` from the forecast result. -/
def fetchWeatherData (cw : CurrentResult) (fr : ForecastResult) : CombinedWeather :=
  { location := cw.location, current := cw.current, forecast := fr.forecast }

/-! ## The request coordinator (`WeatherApp.handleSearch`)

`WeatherApp` keeps two `Map`s: `weatherCache` (key → `{data, timestamp}`)
and `pendingRequests` (key → promise).  JS is single-threaded, so the
synchronous prefix of `handleSearch` — cache probe, pending probe, and
(on a miss) issuing `fetchWeatherData` and registering the pending
promise — runs atomically up to the first `await`; it is embedded as
`handleSearchSync`.  The continuation after the awaited fetch settles
(the inner `try`/`finally` body) is embedded as `settleSuccess` /
`settleFailure`.  Each issued fetch (one `Promise.all` pair of network
calls) is recorded in `fetchLog`.  The payload type is a parameter `α`
(the coordinator never inspects the weather data it moves around). -/

/-- `WeatherApp.cacheTimeout`: `10 * 60 * 1000` ms. -/
def cacheTimeout : Nat := 10 * 60 * 1000

structure AppState (α : Type) where
  cache : List (String × α × Nat)
  pending : List String
  fetchLog : List String
deriving DecidableEq, Repr

def initState (α : Type) : AppState α :=
  { cache := [], pending := [], fetchLog := [] }

/-- `Map.prototype.get` on the cache. -/
def lookupCache {α : Type} : List (String × α × Nat) → String → Option (α × Nat)
  | [], _ => none
  | (k, v) :: rest, key => if k = key then some v else lookupCache rest key

/-- `Map.prototype.delete` (keys are unique in a JS `Map`; the embedding
removes every binding of the key). -/
def eraseCacheKey {α : Type} (cache : List (String × α × Nat)) (key : String) :
    List (String × α × Nat) :=
  cache.filter fun e => e.1 ≠ key

/-- `Map.prototype.set`: update in place if present, else append. -/
def setCacheKey {α : Type} (cache : List (String × α × Nat)) (key : String)
    (v : α × Nat) : List (String × α × Nat) :=
  if cache.any (fun e => e.1 = key) then
    cache.map fun e => if e.1 = key then (key, v) else e
  else cache ++ [(key, v)]

/-- `WeatherApp.cleanupCache`: drop each entry with
`now - timestamp >= cacheTimeout`. -/
def cleanupCache {α : Type} (cache : List (String × α × Nat)) (now : Nat) :
    List (String × α × Nat) :=
  cache.filter fun e => now - e.2.2 < cacheTimeout

/-- `WeatherApp.cacheWeatherData`: store `{data, timestamp: now}` under
the key, then clean up expired entries. -/
def cacheWeatherData {α : Type} (cache : List (String × α × Nat)) (now : Nat)
    (key : String) (d : α) : List (String × α × Nat) :=
  cleanupCache (setCacheKey cache key (d, now)) now

/-- `WeatherApp.getCachedWeatherData`: return the entry while
`now - timestamp < cacheTimeout`; delete it and return nothing once
expired.  (JS `now - timestamp` is never negative for monotone clocks;
for `now < timestamp` both the JS difference and the truncated Nat
difference satisfy the `< cacheTimeout` test.) -/
def getCachedWeatherData {α : Type} (s : AppState α) (now : Nat) (key : String) :
    AppState α × Option α :=
  match lookupCache s.cache key with
  | none => (s, none)
  | some (d, t) =>
    if now - t < cacheTimeout then (s, some d)
    else ({ s with cache := eraseCacheKey s.cache key }, none)

/-- The outcome of the synchronous prefix of `handleSearch`. -/
inductive SearchOutcome (α : Type) where
  | cachedHit (d : α)
  | joined
  | started
deriving DecidableEq, Repr

/-- The synchronous prefix of `WeatherApp.handleSearch`, given the
already-derived key: probe the cache, then the pending map; on a double
miss, issue the fetch pair and register the pending promise before any
`await` (hence before control can yield). -/
def handleSearchSync {α : Type} (s : AppState α) (now : Nat) (key : String) :
    AppState α × SearchOutcome α :=
  let probe := getCachedWeatherData s now key
  match probe.2 with
  | some d => (probe.1, SearchOutcome.cachedHit d)
  | none =>
    if key ∈ probe.1.pending then (probe.1, SearchOutcome.joined)
    else
      ({ probe.1 with pending := key :: probe.1.pending
                      fetchLog := key :: probe.1.fetchLog },
       SearchOutcome.started)

/-- The continuation of `handleSearch` when the awaited fetch resolves:
cache the result (`cacheWeatherData`), then the `finally` block deletes
the pending marker before the coordinator returns control. -/
def settleSuccess {α : Type} (s : AppState α) (now : Nat) (key : String) (d : α) :
    AppState α :=
  { s with cache := cacheWeatherData s.cache now key d
           pending := s.pending.erase key }

/-- The continuation of `handleSearch` when the awaited fetch rejects:
only the `finally` block runs — the pending marker is deleted and the
cache is untouched. -/
def settleFailure {α : Type} (s : AppState α) (key : String) : AppState α :=
  { s with pending := s.pending.erase key }

/-- The observable coordinator events: a search reaching the
synchronous prefix, and a pending fetch settling either way. -/
inductive CoordOp (α : Type) where
  | search (now : Nat) (key : String)
  | settleOk (now : Nat) (key : String) (d : α)
  | settleFail (key : String)
deriving DecidableEq, Repr

def applyOp {α : Type} (s : AppState α) : CoordOp α → AppState α
  | CoordOp.search now key => (handleSearchSync s now key).1
  | CoordOp.settleOk now key d => settleSuccess s now key d
  | CoordOp.settleFail key => settleFailure s key

/-- The coordinator state after a sequence of events from a fresh app. -/
def runOps (α : Type) (ops : List (CoordOp α)) : AppState α :=
  ops.foldl applyOp (initState α)

/-! ## Normal-form predicates for the idempotence analysis of
`formatLocationName` (C4): a string is in normal form when it has no
edge whitespace, all whitespace is a single plain space, no two
adjacent punctuation characters occur, and every word-boundary
character is already upper-cased.  Each pipeline stage of
`formatLocationName` establishes its predicate and is the identity on
lists satisfying it. -/

def headHas (p : Char → Bool) : List Char → Bool
  | [] => false
  | c :: _ => p c

def lastHas (p : Char → Bool) (l : List Char) : Bool := headHas p l.reverse

/-- Every whitespace character is the plain space `' '`. -/
def spacesSimple (l : List Char) : Bool := l.all fun c => !isJsSpace c || c = ' '

/-- No two adjacent characters of the class `p`. -/
def noAdj (p : Char → Bool) : List Char → Bool
  | a :: b :: rest => !(p a && p b) && noAdj p (b :: rest)
  | _ => true

/-- Every word character at a `\b\w` position (relative to the flag
for the previous character) is a fixed point of upper-casing. -/
def okUpper : Bool → List Char → Bool
  | _, [] => true
  | prev, c :: rest =>
    (!(isWordChar c && !prev) || (jsToUpper c = c : Bool)) && okUpper (isWordChar c) rest

/-! # Lemmas and claim theorems -/

/-- `jsRound` is `⌊q + 1/2⌋`, the mathematical reading of `Math.round`. -/
theorem jsRound_eq_floor (q : ℚ) : jsRound q = ⌊q + 1 / 2⌋ := by
  set n := q.num with hn
  set d := q.den with hd
  have hd0 : d ≠ 0 := q.den_nz
  have hdq : ((d : ℚ)) ≠ 0 := Nat.cast_ne_zero.mpr hd0
  have key : q + 1 / 2 = ((2 * n + (d : ℤ) : ℤ) : ℚ) / (((2 * d : ℕ) : ℕ) : ℚ) := by
    rw [← Rat.num_div_den q, ← hn, ← hd]
    push_cast
    field_simp
    ring
  rw [key, Rat.floor_intCast_div_natCast]
  unfold jsRound
  push_cast
  rfl

/-! ## Generic list lemmas -/

theorem mem_dropWhile_of_neg {α : Type} (p : α → Bool) {c : α} (hc : p c = false) :
    ∀ {l : List α}, c ∈ l → c ∈ l.dropWhile p
  | [], h => absurd h (List.not_mem_nil c)
  | a :: l, h => by
    rw [List.dropWhile]
    cases ha : p a with
    | false => simpa using h
    | true =>
      rcases List.mem_cons.mp h with rfl | h'
      · rw [ha] at hc; cases hc
      · exact mem_dropWhile_of_neg p hc h'

theorem mem_jsTrim_of_neg {c : Char} (hc : isJsSpace c = false) {l : List Char}
    (h : c ∈ l) : c ∈ jsTrim l := by
  unfold jsTrim
  exact List.mem_reverse.mpr
    (mem_dropWhile_of_neg _ hc (List.mem_reverse.mpr (mem_dropWhile_of_neg _ hc h)))

/-! ## C9: the validator's character class is ASCII-only -/

theorem isJsSpace_false_of_invalid {c : Char} (hc : isValidCityChar c = false) :
    isJsSpace c = false := by
  unfold isValidCityChar at hc
  cases h : isJsSpace c
  · rfl
  · rw [h] at hc; simp at hc

/-- Claim C9: `validateLocationInput` accepts only characters of the
ASCII class `[a-zA-Z\s\-'.]`; any input containing a character outside
that class — in particular any non-ASCII letter such as `ü` — is
reported invalid. -/
theorem validator_rejects_nonascii_letters (s : String) (c : Char)
    (hmem : c ∈ s.data) (hc : isValidCityChar c = false) :
    (validateLocationInput s).isValid = false := by
  have hsp : isJsSpace c = false := isJsSpace_false_of_invalid hc
  have hct : c ∈ jsTrim s.data := mem_jsTrim_of_neg hsp hmem
  have hall : (jsTrim s.data).all isValidCityChar = false := by
    cases h : (jsTrim s.data).all isValidCityChar
    · rfl
    · exact absurd (List.all_eq_true.mp h c hct) (by simp [hc])
  simp only [validateLocationInput]
  split_ifs <;> simp_all

/-- Witness for C9 at the accented city name `Zürich`. -/
theorem validator_rejects_nonascii_letters_witness :
    ('ü' ∈ ("Zürich" : String).data ∧ isValidCityChar 'ü' = false) ∧
    (validateLocationInput "Zürich").isValid = false :=
  ⟨by decide, validator_rejects_nonascii_letters "Zürich" 'ü' (by decide) (by decide)⟩

/-! ## C6: most-frequent selection and its tie-break -/

theorem mem_objectKeys_aux (x : String) :
    ∀ (l acc : List String), (x ∈ acc ∨ x ∈ l) →
      x ∈ l.foldl (fun acc c => if c ∈ acc then acc else acc ++ [c]) acc
  | [], acc, h => by
    rcases h with h | h
    · simpa using h
    · cases h
  | c :: l, acc, h => by
    rw [List.foldl_cons]
    apply mem_objectKeys_aux x l
    rcases h with h | h
    · left; split
      · exact h
      · exact List.mem_append_left _ h
    · rcases List.mem_cons.mp h with rfl | h'
      · left; split
        · next hin => exact hin
        · exact List.mem_append_right _ (List.mem_singleton.mpr rfl)
      · right; exact h'

theorem mem_objectKeys {x : String} {l : List String} (h : x ∈ l) :
    x ∈ objectKeys l :=
  mem_objectKeys_aux x l [] (Or.inr h)

/-- The JS `reduce((a, b) => f[a] > f[b] ? a : b)` fold returns the
last element of the list attaining the maximal `f`-value: the list
splits around the result into earlier elements with values `≤` and
later elements with values `<`. -/
theorem foldl_maxKey_split (f : String → Nat) :
    ∀ (ks : List String) (a : String),
      ∃ l₁ l₂,
        a :: ks = l₁ ++ (ks.foldl (fun x b => if f x > f b then x else b) a) :: l₂ ∧
        (∀ x ∈ l₁, f x ≤ f (ks.foldl (fun x b => if f x > f b then x else b) a)) ∧
        (∀ x ∈ l₂, f x < f (ks.foldl (fun x b => if f x > f b then x else b) a))
  | [], a => ⟨[], [], rfl, by simp, by simp⟩
  | b :: ks, a => by
    rw [List.foldl_cons]
    rcases foldl_maxKey_split f ks (if f a > f b then a else b) with ⟨m₁, m₂, heq, hle, hlt⟩
    set r := ks.foldl (fun x b => if f x > f b then x else b) (if f a > f b then a else b) with hr
    have hheadle : f (if f a > f b then a else b) ≤ f r := by
      rcases m₁ with _ | ⟨m, m₁'⟩
      · have : (if f a > f b then a else b) = r := by
          have := heq; simp at this; exact this.1
        rw [this]
      · have hm : (if f a > f b then a else b) = m := by
          have := heq; simp at this; exact this.1
        rw [hm]
        exact hle m (List.mem_cons_self m m₁')
    by_cases hab : f a > f b
    · rw [if_pos hab] at heq hheadle
      rcases m₁ with _ | ⟨m, m₁'⟩
      · -- r = a and m₂ = ks
        have h1 : a = r ∧ ks = m₂ := by simpa using heq
        refine ⟨[], b :: ks, ?_, by simp, ?_⟩
        · simp [← h1.1]
        · intro x hx
          rcases List.mem_cons.mp hx with rfl | hx'
          · calc f x < f a := hab
              _ ≤ f r := hheadle
          · rw [h1.2] at hx'
            exact hlt x hx'
      · have h1 : a = m ∧ ks = m₁' ++ r :: m₂ := by simpa using heq
        refine ⟨a :: b :: m₁', m₂, ?_, ?_, hlt⟩
        · simp [h1.2]
        · intro x hx
          rcases List.mem_cons.mp hx with rfl | hx'
          · rw [h1.1]; exact hle m (List.mem_cons_self m m₁')
          rcases List.mem_cons.mp hx' with rfl | hx''
          · refine le_of_lt (lt_of_lt_of_le hab ?_)
            rw [h1.1]; exact hle m (List.mem_cons_self m m₁')
          · exact hle x (List.mem_cons_of_mem m hx'')
    · rw [if_neg hab] at heq hheadle
      refine ⟨a :: m₁, m₂, ?_, ?_, hlt⟩
      · rw [heq]; rfl
      · intro x hx
        rcases List.mem_cons.mp hx with rfl | hx'
        · calc f x ≤ f b := Nat.le_of_not_lt hab
            _ ≤ f r := hheadle
        · exact hle x hx'

/-- Claim C6 (amended): for every non-empty list of per-bucket values,
the selected condition (and icon) has the highest occurrence count, and
a tie among the highest counts is broken in favour of the
LAST-encountered such value in iteration (first-occurrence) order:
every key after the selected one has a strictly smaller count. -/
theorem mostFrequent_max_last_tie (l : List String) (h : l ≠ []) :
    ∃ r l₁ l₂,
      getMostFrequentCondition l = some r ∧
      getMostFrequentIcon l = some r ∧
      objectKeys l = l₁ ++ r :: l₂ ∧
      (∀ x ∈ l, l.count x ≤ l.count r) ∧
      (∀ x ∈ l₂, l.count x < l.count r) := by
  rcases l with _ | ⟨c, l'⟩
  · exact absurd rfl h
  rcases hk : objectKeys (c :: l') with _ | ⟨k, ks⟩
  · exact absurd (hk ▸ mem_objectKeys (List.mem_cons_self c l')) (List.not_mem_nil c)
  rcases foldl_maxKey_split (fun k => (c :: l').count k) ks k with ⟨l₁, l₂, heq, hle, hlt⟩
  refine ⟨ks.foldl (fun x b =>
      if (c :: l').count x > (c :: l').count b then x else b) k, l₁, l₂, ?_, ?_, ?_, ?_, hlt⟩
  · unfold getMostFrequentCondition jsReduceMaxKey
    rw [hk]
  · unfold getMostFrequentIcon jsReduceMaxKey
    rw [hk]
  · exact heq
  · intro x hx
    have : x ∈ objectKeys (c :: l') := mem_objectKeys hx
    rw [hk, heq] at this
    rcases List.mem_append.mp this with h1 | h1
    · exact hle x h1
    · rcases List.mem_cons.mp h1 with rfl | h1'
      · exact Nat.le_refl _
      · exact Nat.le_of_lt (hlt x h1')

/-- Counterexample to C6 as stated: in the bucket `["Rain", "Clear"]`
both values occur once (a tie); the first-encountered value in
iteration order is `"Rain"`, but the code selects `"Clear"`. -/
theorem mostFrequent_tie_not_first :
    (["Rain", "Clear"] : List String).count "Rain" =
      (["Rain", "Clear"] : List String).count "Clear" ∧
    objectKeys ["Rain", "Clear"] = ["Rain", "Clear"] ∧
    getMostFrequentCondition ["Rain", "Clear"] = some "Clear" ∧
    getMostFrequentIcon ["Rain", "Clear"] = some "Clear" ∧
    getMostFrequentCondition ["Rain", "Clear"] ≠ some "Rain" := by
  decide

/-- Witness for C6 (amended) at the bucket `["Rain", "Clear", "Rain"]`. -/
theorem mostFrequent_max_last_tie_witness :
    ∃ r l₁ l₂,
      getMostFrequentCondition ["Rain", "Clear", "Rain"] = some r ∧
      getMostFrequentIcon ["Rain", "Clear", "Rain"] = some r ∧
      objectKeys ["Rain", "Clear", "Rain"] = l₁ ++ r :: l₂ ∧
      (∀ x ∈ (["Rain", "Clear", "Rain"] : List String),
        (["Rain", "Clear", "Rain"] : List String).count x ≤
          (["Rain", "Clear", "Rain"] : List String).count r) ∧
      (∀ x ∈ l₂, (["Rain", "Clear", "Rain"] : List String).count x <
          (["Rain", "Clear", "Rain"] : List String).count r) :=
  mostFrequent_max_last_tie ["Rain", "Clear", "Rain"] (by decide)

/-! ## C1: error classification, direct and through the provider wrapper -/

/-- Claim C1 (code bug, evaluated): the classifier maps a raw HTTP 404
error to `notfound`/retryable, a raw 401 to `auth`/non-retryable and a
raw 503 to `service`/retryable, and a wrapped 404 still classifies as
`notfound`; but the timeout abort — whose error has name `"Error"`,
message `"Request timed out"` (no `"timeout"` substring) and only a
`type` property the classifier never reads — classifies as `unknown`,
and after `WeatherService.handleApiError` wraps an error (dropping
`status` and rewording `message`) the 401 and 503 cases also classify
as `unknown` with `showRetry = true`. -/
theorem errorClassification_evaluation :
    handleWeatherError (httpError 404) =
      { etype := "notfound"
        message := "Location not found. Please check the spelling and try again."
        showRetry := true } ∧
    handleWeatherError (handleApiError (httpError 404)) =
      { etype := "notfound"
        message := "Location not found. Please check the spelling and try again."
        showRetry := true } ∧
    handleWeatherError (httpError 401) =
      { etype := "auth"
        message := "Authentication error. Please check API configuration."
        showRetry := false } ∧
    handleWeatherError (httpError 503) =
      { etype := "service"
        message := "Weather service is currently unavailable. Please try again later."
        showRetry := true } ∧
    handleWeatherError timeoutAbortError =
      { etype := "unknown"
        message := "An unexpected error occurred. Please try again."
        showRetry := true } ∧
    handleWeatherError (handleApiError timeoutAbortError) =
      { etype := "unknown"
        message := "An unexpected error occurred. Please try again."
        showRetry := true } ∧
    handleWeatherError (handleApiError (httpError 401)) =
      { etype := "unknown"
        message := "An unexpected error occurred. Please try again."
        showRetry := true } ∧
    handleWeatherError (handleApiError (httpError 503)) =
      { etype := "unknown"
        message := "An unexpected error occurred. Please try again."
        showRetry := true } := by
  decide

/-! ## C5: what the cache key is derived from -/

/-- Counterexample to C5 as stated: the raw queries `"St"` and `"St."`
differ only in the abbreviation expansion, yet the search pipeline maps
them to the distinct keys `"st."` and `"st.."`; moreover the key of
`"St"` is `"st."`, not the fold `"st"` of the raw trimmed input, so the
key is derived from the title-cased normalized form. -/
theorem searchPipelineKey_abbrev_distinct :
    searchPipelineKey "St" = some "st." ∧
    searchPipelineKey "St." = some "st.." ∧
    searchPipelineKey "St" ≠ searchPipelineKey "St." ∧
    normalizedCityName "St" = "st" ∧
    searchPipelineKey "St" ≠ some (normalizedCityName "St") := by
  decide

/-- Claim C5 (amended): the cache / in-flight key is the
case-insensitive fold of the `formatLocationName` output (the
title-cased, abbreviation-expanded display form), since
`SearchInterface.handleSearch` formats the raw query before
`WeatherApp.handleSearch` lowercases and trims it.  Queries differing
only in case therefore collide exactly when their normalized forms
differ only in case (`"London"`/`"LONDON"` do), but the case-sensitive
abbreviation rule can separate them (`"st"` expands, `"ST"` does not),
and `"St"` vs `"St."` land on different keys. -/
theorem searchPipelineKey_uses_normalized_form :
    searchPipelineKey "London" = some "london" ∧
    searchPipelineKey "LONDON" = some "london" ∧
    searchPipelineKey "london" = some "london" ∧
    searchPipelineKey "st" = some "st." ∧
    searchPipelineKey "ST" = some "st" ∧
    searchPipelineKey "st" ≠ searchPipelineKey "ST" ∧
    (∀ raw : String, (validateLocationInput raw).isValid = true →
      searchPipelineKey raw = some (normalizedCityName (formatLocationName raw))) := by
  refine ⟨by decide, by decide, by decide, by decide, by decide, by decide, ?_⟩
  intro raw hv
  unfold searchPipelineKey
  rw [hv]
  simp

/-- Witness for C5 (amended) instantiating its universal clause at the
accepted query `"London"`. -/
theorem searchPipelineKey_uses_normalized_form_witness :
    (validateLocationInput "London").isValid = true ∧
    searchPipelineKey "London" = some (normalizedCityName (formatLocationName "London")) :=
  ⟨by decide, (searchPipelineKey_uses_normalized_form.2.2.2.2.2.2) "London" (by decide)⟩

/-! ## C4 counterexample: the abbreviation rule re-fires -/

/-- Counterexample to C4 as stated: `"St"` is accepted by the
validator, `formatLocationName "St" = "St."`, and a second application
appends a second period — the `\bSt\b → St.` rule matches its own
output — so `normalize` is not idempotent on all accepted inputs. -/
theorem formatLocationName_St_not_idempotent :
    (validateLocationInput "St").isValid = true ∧
    formatLocationName "St" = "St." ∧
    formatLocationName (formatLocationName "St") = "St.." ∧
    formatLocationName (formatLocationName "St") ≠ formatLocationName "St" := by
  decide

/-! ## C10: the merged snapshot's location -/

/-- Claim C10: the merged `WeatherSnapshot` takes its `location` solely
from the current-weather response (`name` and `sys.country`); the
location carried by the forecast response is discarded, so two forecast
responses resolving to different places leave the merged location
unchanged. -/
theorem snapshot_location_from_current (cur : ApiCurrentResponse)
    (fr : ApiForecastResponse) (fres : ForecastResult)
    (hfr : transformForecastData fr = some fres) :
    (fetchWeatherData (transformCurrentWeatherData cur) fres).location =
      { name := cur.name, country := cur.sysCountry } ∧
    (∀ (fr' : ApiForecastResponse) (fres' : ForecastResult),
      transformForecastData fr' = some fres' →
      (fetchWeatherData (transformCurrentWeatherData cur) fres').location =
        (fetchWeatherData (transformCurrentWeatherData cur) fres).location) :=
  ⟨rfl, fun _ _ _ => rfl⟩

/-- Witness for C10: a current-weather response for London merged with
a forecast response whose `city` field says Paris still reports the
London location. -/
theorem snapshot_location_from_current_witness :
    transformForecastData
        { cityName := "Paris", cityCountry := "FR"
          list := [{ dt := 0, temp := 10, condition := "Clear", icon := "01d" }] } =
      some { location := { name := "Paris", country := "FR" }
             forecast := [{ date := 0, highTemp := 10, lowTemp := 10
                            condition := "Clear", icon := "01d" }] } ∧
    (fetchWeatherData
        (transformCurrentWeatherData
          { name := "London", sysCountry := "GB", temp := 18.4
            weatherMain := "Clear", weatherDescription := "clear sky"
            weatherIcon := "01d", humidity := 60, windSpeed := some 5 })
        { location := { name := "Paris", country := "FR" }
          forecast := [{ date := 0, highTemp := 10, lowTemp := 10
                         condition := "Clear", icon := "01d" }] }).location =
      { name := "London", country := "GB" } :=
  ⟨by decide, (snapshot_location_from_current
      { name := "London", sysCountry := "GB", temp := 18.4
        weatherMain := "Clear", weatherDescription := "clear sky"
        weatherIcon := "01d", humidity := 60, windSpeed := some 5 }
      { cityName := "Paris", cityCountry := "FR"
        list := [{ dt := 0, temp := 10, condition := "Clear", icon := "01d" }] }
      { location := { name := "Paris", country := "FR" }
        forecast := [{ date := 0, highTemp := 10, lowTemp := 10
                       condition := "Clear", icon := "01d" }] }
      (by decide)).1⟩

/-! ## Coordinator lemmas (C2, C3, C8) -/

theorem lookupCache_cons {α : Type} (k : String) (v : α × Nat)
    (c : List (String × α × Nat)) (key : String) :
    lookupCache ((k, v) :: c) key = if k = key then some v else lookupCache c key :=
  rfl

theorem lookupCache_filter_ne {α : Type} (key : String) :
    ∀ c : List (String × α × Nat),
      lookupCache (c.filter fun e => e.1 ≠ key) key = none
  | [] => rfl
  | (k, v) :: rest => by
    rw [List.filter_cons]
    by_cases hk : k = key
    · rw [if_neg (by simp [hk])]
      exact lookupCache_filter_ne key rest
    · rw [if_pos (by simp [hk]), lookupCache_cons, if_neg hk]
      exact lookupCache_filter_ne key rest

theorem lookupCache_erase_self {α : Type} (c : List (String × α × Nat)) (key : String) :
    lookupCache (eraseCacheKey c key) key = none :=
  lookupCache_filter_ne key c

theorem lookupCache_set_self {α : Type} (key : String) (v : α × Nat) :
    ∀ c : List (String × α × Nat), lookupCache (setCacheKey c key v) key = some v := by
  intro c
  unfold setCacheKey
  split
  · next hany =>
    induction c with
    | nil => simp at hany
    | cons e rest ih =>
      rcases e with ⟨k, w⟩
      rw [List.map_cons]
      by_cases hk : k = key
      · rw [if_pos hk, lookupCache_cons, if_pos rfl]
      · rw [if_neg hk, lookupCache_cons, if_neg hk]
        refine ih ?_
        rcases List.any_eq_true.mp hany with ⟨e, he, hke⟩
        rcases List.mem_cons.mp he with rfl | he'
        · exact absurd (by simpa using hke) hk
        · exact List.any_eq_true.mpr ⟨e, he', hke⟩
  · next hany =>
    induction c with
    | nil => rw [List.nil_append, lookupCache_cons, if_pos rfl]
    | cons e rest ih =>
      rcases e with ⟨k, w⟩
      have hk : k ≠ key := by
        intro h
        exact hany (List.any_eq_true.mpr ⟨(k, w), List.mem_cons_self _ _, by simpa using h⟩)
      rw [List.cons_append, lookupCache_cons, if_neg hk]
      refine ih ?_
      intro h
      rcases List.any_eq_true.mp h with ⟨e, he, hke⟩
      exact hany (List.any_eq_true.mpr ⟨e, List.mem_cons_of_mem _ he, hke⟩)

theorem setCacheKey_key_entries {α : Type} (key : String) (v : α × Nat)
    (c : List (String × α × Nat)) :
    ∀ e ∈ setCacheKey c key v, e.1 = key → e.2 = v := by
  intro e he hek
  unfold setCacheKey at he
  revert he
  split
  · intro he
    rcases List.mem_map.mp he with ⟨a, _, hae⟩
    by_cases hk : a.1 = key
    · rw [if_pos hk] at hae
      rw [← hae]
    · rw [if_neg hk] at hae
      exact absurd (hae ▸ hek) hk
  · next hany =>
    intro he
    rcases List.mem_append.mp he with he' | he'
    · exfalso
      exact hany (List.any_eq_true.mpr ⟨e, he', by simpa using hek⟩)
    · rcases List.mem_singleton.mp he' with rfl
      rfl

theorem lookupCache_filter_of {α : Type} (p : String × α × Nat → Bool) (key : String)
    (v : α × Nat) :
    ∀ c : List (String × α × Nat),
      (∀ e ∈ c, e.1 = key → e.2 = v) → lookupCache c key = some v →
      p (key, v) = true → lookupCache (c.filter p) key = some v
  | [], _, hl, _ => by cases hl
  | (k, w) :: rest, hent, hl, hp => by
    rw [lookupCache_cons] at hl
    by_cases hk : k = key
    · have hw : w = v := hent (k, w) (List.mem_cons_self _ _) hk
      rw [List.filter_cons, if_pos (by rw [hk, hw]; exact hp), lookupCache_cons, if_pos hk, hw]
    · rw [if_neg hk] at hl
      have ih := lookupCache_filter_of p key v rest
        (fun e he => hent e (List.mem_cons_of_mem _ he)) hl hp
      rw [List.filter_cons]
      split
      · rw [lookupCache_cons, if_neg hk]
        exact ih
      · exact ih

theorem lookupCache_cacheWeatherData_self {α : Type} (c : List (String × α × Nat))
    (now : Nat) (key : String) (d : α) :
    lookupCache (cacheWeatherData c now key d) key = some (d, now) := by
  unfold cacheWeatherData cleanupCache
  refine lookupCache_filter_of _ key (d, now) _
    (setCacheKey_key_entries key (d, now) c) (lookupCache_set_self key (d, now) c) ?_
  simp [cacheTimeout]

theorem getCached_pending {α : Type} (s : AppState α) (now : Nat) (key : String) :
    (getCachedWeatherData s now key).1.pending = s.pending := by
  unfold getCachedWeatherData
  cases lookupCache s.cache key with
  | none => rfl
  | some v =>
    rcases v with ⟨d, t⟩
    dsimp only
    split <;> rfl

theorem getCached_fetchLog {α : Type} (s : AppState α) (now : Nat) (key : String) :
    (getCachedWeatherData s now key).1.fetchLog = s.fetchLog := by
  unfold getCachedWeatherData
  cases lookupCache s.cache key with
  | none => rfl
  | some v =>
    rcases v with ⟨d, t⟩
    dsimp only
    split <;> rfl

theorem getCached_none_lookup {α : Type} (s : AppState α) (now : Nat) (key : String)
    (h : (getCachedWeatherData s now key).2 = none) :
    lookupCache (getCachedWeatherData s now key).1.cache key = none := by
  unfold getCachedWeatherData at h ⊢
  cases hl : lookupCache s.cache key with
  | none => exact hl
  | some v =>
    rcases v with ⟨d, t⟩
    rw [hl] at h
    dsimp only at h ⊢
    split at h
    · cases h
    · next hex =>
      rw [if_neg hex]
      exact lookupCache_erase_self s.cache key

theorem getCached_of_lookup_none {α : Type} (s : AppState α) (now : Nat) (key : String)
    (h : lookupCache s.cache key = none) :
    getCachedWeatherData s now key = (s, none) := by
  unfold getCachedWeatherData
  rw [h]

theorem applyOp_pending_nodup {α : Type} (s : AppState α) (op : CoordOp α)
    (h : s.pending.Nodup) : ((applyOp s op).pending).Nodup := by
  cases op with
  | search now key =>
    show ((handleSearchSync s now key).1.pending).Nodup
    unfold handleSearchSync
    rcases hgc : getCachedWeatherData s now key with ⟨s', r⟩
    have hsp : s'.pending = s.pending := by
      have := getCached_pending s now key
      rw [hgc] at this
      exact this
    cases r with
    | some d => simpa [hsp] using h
    | none =>
      dsimp only
      split
      · simpa [hsp] using h
      · next hmem =>
        refine List.nodup_cons.mpr ⟨hmem, ?_⟩
        simpa [hsp] using h
  | settleOk now key d => exact h.erase key
  | settleFail key => exact h.erase key

theorem foldl_pending_nodup {α : Type} :
    ∀ (ops : List (CoordOp α)) (s : AppState α), s.pending.Nodup →
      ((ops.foldl applyOp s).pending).Nodup
  | [], _, h => h
  | op :: ops, s, h => foldl_pending_nodup ops _ (applyOp_pending_nodup s op h)

theorem runOps_pending_nodup {α : Type} (ops : List (CoordOp α)) :
    ((runOps α ops).pending).Nodup :=
  foldl_pending_nodup ops (initState α) List.nodup_nil

/-- Claim C2: (i) a search arriving while its key is pending joins the
pending operation — it never starts a fetch and leaves the pending map
and the fetch log unchanged; (ii) two searches for the same key in the
same tick (no settle in between) on a cache miss issue exactly one
fetch: the first starts it, the second joins it; (iii) in every
reachable coordinator state, at most one fetch per key is in flight
(the pending map holds the key at most once). -/
theorem coordinator_dedup_invariant (α : Type) :
    (∀ (s : AppState α) (now : Nat) (key : String), key ∈ s.pending →
      (handleSearchSync s now key).2 ≠ SearchOutcome.started ∧
      (handleSearchSync s now key).1.pending = s.pending ∧
      (handleSearchSync s now key).1.fetchLog = s.fetchLog) ∧
    (∀ (s : AppState α) (now : Nat) (key : String),
      key ∉ s.pending → (getCachedWeatherData s now key).2 = none →
      (handleSearchSync s now key).2 = SearchOutcome.started ∧
      (handleSearchSync (handleSearchSync s now key).1 now key).2 = SearchOutcome.joined ∧
      (handleSearchSync (handleSearchSync s now key).1 now key).1.fetchLog.count key =
        s.fetchLog.count key + 1) ∧
    (∀ (ops : List (CoordOp α)) (key : String), ((runOps α ops).pending).count key ≤ 1) := by
  refine ⟨?_, ?_, ?_⟩
  · intro s now key hmem
    unfold handleSearchSync
    rcases hgc : getCachedWeatherData s now key with ⟨s', r⟩
    have hsp : s'.pending = s.pending := by
      have := getCached_pending s now key
      rw [hgc] at this
      exact this
    have hsf : s'.fetchLog = s.fetchLog := by
      have := getCached_fetchLog s now key
      rw [hgc] at this
      exact this
    cases r with
    | some d => exact ⟨by simp, hsp, hsf⟩
    | none =>
      dsimp only
      rw [if_pos (hsp ▸ hmem)]
      exact ⟨by simp, hsp, hsf⟩
  · intro s now key hmem hnone
    rcases hgc : getCachedWeatherData s now key with ⟨s', r⟩
    have hsp : s'.pending = s.pending := by
      have := getCached_pending s now key
      rw [hgc] at this
      exact this
    have hsf : s'.fetchLog = s.fetchLog := by
      have := getCached_fetchLog s now key
      rw [hgc] at this
      exact this
    have hr : r = none := by
      rw [hgc] at hnone
      exact hnone
    subst hr
    have hlook : lookupCache s'.cache key = none := by
      have := getCached_none_lookup s now key (by rw [hgc])
      rw [hgc] at this
      exact this
    have hfirst : handleSearchSync s now key =
        ({ cache := s'.cache, pending := key :: s'.pending, fetchLog := key :: s'.fetchLog },
         SearchOutcome.started) := by
      unfold handleSearchSync
      rw [hgc]
      dsimp only
      rw [if_neg (hsp ▸ hmem)]
    have hsecond : handleSearchSync
        ({ cache := s'.cache, pending := key :: s'.pending,
           fetchLog := key :: s'.fetchLog } : AppState α) now key =
        ({ cache := s'.cache, pending := key :: s'.pending, fetchLog := key :: s'.fetchLog },
         SearchOutcome.joined) := by
      unfold handleSearchSync
      rw [getCached_of_lookup_none
        ({ cache := s'.cache, pending := key :: s'.pending,
           fetchLog := key :: s'.fetchLog } : AppState α) now key hlook]
      dsimp only
      rw [if_pos (List.mem_cons_self key _)]
    refine ⟨by rw [hfirst], by rw [hfirst, hsecond], ?_⟩
    rw [hfirst, hsecond]
    dsimp only
    rw [List.count_cons_self, hsf]
  · intro ops key
    exact List.nodup_iff_count_le_one.mp (runOps_pending_nodup ops) key

/-- Witness for C2: on a fresh coordinator, the first search for
`"london"` starts the fetch, a same-tick second search joins it, and
exactly one fetch is logged. -/
theorem coordinator_dedup_invariant_witness :
    (handleSearchSync (initState ℕ) 0 "london").2 = SearchOutcome.started ∧
    (handleSearchSync (handleSearchSync (initState ℕ) 0 "london").1 0 "london").2 =
      SearchOutcome.joined ∧
    (handleSearchSync (handleSearchSync (initState ℕ) 0 "london").1 0 "london").1.fetchLog.count
        "london" = (initState ℕ).fetchLog.count "london" + 1 :=
  (coordinator_dedup_invariant ℕ).2.1 (initState ℕ) 0 "london" (by decide) (by decide)

/-- Claim C3: after a successful settle at time `t` for a key, a search
at any `now` with `now - t < 600000` returns the identical cached data
with the state untouched (no fetch); once `600000 ≤ now - t` the entry
is removed on read and the search starts a fresh fetch. -/
theorem cache_ttl_roundtrip {α : Type} (s₀ : AppState α) (t : Nat) (key : String) (d : α)
    (now : Nat) (hnd : s₀.pending.Nodup) :
    (now - t < cacheTimeout →
      handleSearchSync (settleSuccess s₀ t key d) now key =
        (settleSuccess s₀ t key d, SearchOutcome.cachedHit d)) ∧
    (cacheTimeout ≤ now - t →
      (handleSearchSync (settleSuccess s₀ t key d) now key).2 = SearchOutcome.started ∧
      (handleSearchSync (settleSuccess s₀ t key d) now key).1.fetchLog =
        key :: (settleSuccess s₀ t key d).fetchLog ∧
      lookupCache (handleSearchSync (settleSuccess s₀ t key d) now key).1.cache key =
        none) := by
  have hlook : lookupCache (settleSuccess s₀ t key d).cache key = some (d, t) :=
    lookupCache_cacheWeatherData_self s₀.cache t key d
  constructor
  · intro hfresh
    unfold handleSearchSync getCachedWeatherData
    rw [hlook]
    dsimp only
    rw [if_pos hfresh]
  · intro hstale
    have hmem : key ∉ (settleSuccess s₀ t key d).pending := hnd.not_mem_erase
    unfold handleSearchSync getCachedWeatherData
    rw [hlook]
    dsimp only
    rw [if_neg (Nat.not_lt.mpr hstale)]
    dsimp only
    rw [if_neg hmem]
    exact ⟨rfl, rfl, lookupCache_erase_self _ key⟩

/-- Witness for C3 on a fresh coordinator: at 599,999 ms after the
settle the cached value 42 is returned with the state unchanged; at
600,000 ms the search starts a fetch instead. -/
theorem cache_ttl_roundtrip_witness :
    handleSearchSync (settleSuccess (initState ℕ) 0 "london" 42) 599999 "london" =
      (settleSuccess (initState ℕ) 0 "london" 42, SearchOutcome.cachedHit 42) ∧
    (handleSearchSync (settleSuccess (initState ℕ) 0 "london" 42) 600000 "london").2 =
      SearchOutcome.started :=
  ⟨(cache_ttl_roundtrip (initState ℕ) 0 "london" 42 599999 List.nodup_nil).1 (by decide),
   ((cache_ttl_roundtrip (initState ℕ) 0 "london" 42 600000 List.nodup_nil).2
     (by decide)).1⟩

/-- Claim C8: in every reachable coordinator state, settling a fetch —
successfully or not — removes the in-flight marker for its key before
control returns, and a failed fetch leaves the cache exactly as it
was (failures are never cached). -/
theorem inflight_cleared_and_failure_uncached (α : Type) (ops : List (CoordOp α))
    (now : Nat) (key : String) (d : α) :
    key ∉ (settleSuccess (runOps α ops) now key d).pending ∧
    key ∉ (settleFailure (runOps α ops) key).pending ∧
    (settleFailure (runOps α ops) key).cache = (runOps α ops).cache :=
  ⟨(runOps_pending_nodup ops).not_mem_erase,
   (runOps_pending_nodup ops).not_mem_erase, rfl⟩

/-! ## Forecast lemmas (C7) -/

theorem foldl_max_mem : ∀ (ts : List ℚ) (t : ℚ), ts.foldl max t ∈ t :: ts
  | [], t => List.mem_singleton.mpr rfl
  | u :: ts, t => by
    rw [List.foldl_cons]
    rcases List.mem_cons.mp (foldl_max_mem ts (max t u)) with h | h
    · rw [h]
      rcases max_choice t u with hm | hm <;> rw [hm]
      · exact List.mem_cons_self _ _
      · exact List.mem_cons_of_mem _ (List.mem_cons_self _ _)
    · exact List.mem_cons_of_mem _ (List.mem_cons_of_mem _ h)

theorem le_foldl_max_init : ∀ (ts : List ℚ) (t : ℚ), t ≤ ts.foldl max t
  | [], _ => le_refl _
  | u :: ts, t => le_trans (le_max_left t u) (le_foldl_max_init ts (max t u))

theorem le_foldl_max : ∀ (ts : List ℚ) (t : ℚ) (x : ℚ), x ∈ t :: ts → x ≤ ts.foldl max t
  | [], t, x, h => by
    rcases List.mem_singleton.mp h with rfl
    exact le_refl _
  | u :: ts, t, x, h => by
    rw [List.foldl_cons]
    rcases List.mem_cons.mp h with rfl | h'
    · exact le_trans (le_max_left x u) (le_foldl_max_init ts (max x u))
    · rcases List.mem_cons.mp h' with rfl | h''
      · exact le_trans (le_max_right t x) (le_foldl_max_init ts (max t x))
      · exact le_foldl_max ts (max t u) x (List.mem_cons_of_mem _ h'')

theorem foldl_min_mem : ∀ (ts : List ℚ) (t : ℚ), ts.foldl min t ∈ t :: ts
  | [], t => List.mem_singleton.mpr rfl
  | u :: ts, t => by
    rw [List.foldl_cons]
    rcases List.mem_cons.mp (foldl_min_mem ts (min t u)) with h | h
    · rw [h]
      rcases min_choice t u with hm | hm <;> rw [hm]
      · exact List.mem_cons_self _ _
      · exact List.mem_cons_of_mem _ (List.mem_cons_self _ _)
    · exact List.mem_cons_of_mem _ (List.mem_cons_of_mem _ h)

theorem foldl_min_le_init : ∀ (ts : List ℚ) (t : ℚ), ts.foldl min t ≤ t
  | [], _ => le_refl _
  | u :: ts, t => le_trans (foldl_min_le_init ts (min t u)) (min_le_left t u)

theorem foldl_min_le : ∀ (ts : List ℚ) (t : ℚ) (x : ℚ), x ∈ t :: ts → ts.foldl min t ≤ x
  | [], t, x, h => by
    rcases List.mem_singleton.mp h with rfl
    exact le_refl _
  | u :: ts, t, x, h => by
    rw [List.foldl_cons]
    rcases List.mem_cons.mp h with rfl | h'
    · exact le_trans (foldl_min_le_init ts (min x u)) (min_le_left x u)
    · rcases List.mem_cons.mp h' with rfl | h''
      · exact le_trans (foldl_min_le_init ts (min t x)) (min_le_right t x)
      · exact foldl_min_le ts (min t u) x (List.mem_cons_of_mem _ h'')

/-- Every bucket produced by the grouping loop has non-empty sample
lists (a bucket is created from a sample and only ever appended to). -/
theorem groupByDate_nonempty_aux :
    ∀ (samples : List Sample) (acc : List DayBucket),
      (∀ b ∈ acc, b.temps ≠ [] ∧ b.conditions ≠ [] ∧ b.icons ≠ []) →
      ∀ b ∈ samples.foldl addSample acc,
        b.temps ≠ [] ∧ b.conditions ≠ [] ∧ b.icons ≠ []
  | [], _, hacc => hacc
  | s :: rest, acc, hacc => by
    rw [List.foldl_cons]
    apply groupByDate_nonempty_aux rest (addSample acc s)
    intro b hb
    unfold addSample at hb
    revert hb
    split
    · intro hb
      rcases List.mem_map.mp hb with ⟨a, ha, hab⟩
      rcases hacc a ha with ⟨h1, h2, h3⟩
      by_cases hd : a.date = sampleDate s
      · rw [if_pos hd] at hab
        rw [← hab]
        refine ⟨?_, ?_, ?_⟩ <;> simp
    
      · rw [if_neg hd] at hab
        rw [← hab]
        exact ⟨h1, h2, h3⟩
    · intro hb
      rcases List.mem_append.mp hb with hb' | hb'
      · exact hacc b hb'
      · rcases List.mem_singleton.mp hb' with rfl
        refine ⟨?_, ?_, ?_⟩ <;> simp

theorem groupByDate_nonempty {samples : List Sample} {b : DayBucket}
    (hb : b ∈ groupByDate samples) :
    b.temps ≠ [] ∧ b.conditions ≠ [] ∧ b.icons ≠ [] :=
  groupByDate_nonempty_aux samples [] (by intro b hb; cases hb) b hb

theorem jsReduceMaxKey_objectKeys_isSome (f : String → Nat) (l : List String)
    (h : l ≠ []) : ∃ r, jsReduceMaxKey f (objectKeys l) = some r := by
  rcases l with _ | ⟨c, l'⟩
  · exact absurd rfl h
  rcases hk : objectKeys (c :: l') with _ | ⟨k, ks⟩
  · exact absurd (hk ▸ mem_objectKeys (List.mem_cons_self c l')) (List.not_mem_nil c)
  exact ⟨_, rfl⟩

/-- Inversion of `bucketToDay` for the buckets `groupByDate` builds:
it succeeds and returns the bucket's date, the rounded maximum and the
rounded minimum of the bucket's temperatures. -/
theorem bucketToDay_spec (b : DayBucket) (ht : b.temps ≠ []) (hc : b.conditions ≠ [])
    (hi : b.icons ≠ []) :
    ∃ fd, bucketToDay b = some fd ∧ fd.date = b.date ∧
      (∃ hm, hm ∈ b.temps ∧ (∀ x ∈ b.temps, x ≤ hm) ∧ fd.highTemp = jsRound hm) ∧
      (∃ lm, lm ∈ b.temps ∧ (∀ x ∈ b.temps, lm ≤ x) ∧ fd.lowTemp = jsRound lm) := by
  rcases htemps : b.temps with _ | ⟨t, ts⟩
  · exact absurd htemps ht
  obtain ⟨c, hcs⟩ :=
    jsReduceMaxKey_objectKeys_isSome (fun k => b.conditions.count k) b.conditions hc
  obtain ⟨i, his⟩ := jsReduceMaxKey_objectKeys_isSome (fun k => b.icons.count k) b.icons hi
  refine ⟨{ date := b.date, highTemp := jsRound (ts.foldl max t)
            lowTemp := jsRound (ts.foldl min t), condition := c, icon := i }, ?_, rfl,
          ⟨ts.foldl max t, ?_, ?_, rfl⟩, ⟨ts.foldl min t, ?_, ?_, rfl⟩⟩
  · unfold bucketToDay getMostFrequentCondition getMostFrequentIcon
    rw [htemps, hcs, his]
  · exact foldl_max_mem ts t
  · intro x hx
    exact le_foldl_max ts t x hx
  · exact foldl_min_mem ts t
  · intro x hx
    exact foldl_min_le ts t x hx

theorem forecastDays_forall :
    ∀ bs : List DayBucket,
      (∀ b ∈ bs, ∃ fd, bucketToDay b = some fd) →
      ∃ ds, forecastDays bs = some ds ∧ ds.length = bs.length ∧
        List.Forall₂ (fun b fd => bucketToDay b = some fd) bs ds
  | [], _ => ⟨[], rfl, rfl, List.Forall₂.nil⟩
  | b :: bs, h => by
    obtain ⟨fd, hfd⟩ := h b (List.mem_cons_self b bs)
    obtain ⟨ds, hds, hlen, hfa⟩ :=
      forecastDays_forall bs (fun b' hb' => h b' (List.mem_cons_of_mem _ hb'))
    refine ⟨fd :: ds, ?_, by simp [hlen], List.Forall₂.cons hfd hfa⟩
    unfold forecastDays
    rw [hfd, hds]

theorem bucketToDay_date {b : DayBucket} {fd : ForecastDay}
    (hb : bucketToDay b = some fd) : fd.date = b.date := by
  unfold bucketToDay at hb
  split at hb
  · rw [Option.some_inj] at hb
    rw [← hb]
  · cases hb

theorem forall₂_dates {bs : List DayBucket} {ds : List ForecastDay}
    (h : List.Forall₂ (fun b fd => bucketToDay b = some fd) bs ds) :
    ds.map ForecastDay.date = bs.map DayBucket.date := by
  induction h with
  | nil => rfl
  | cons hbd _ ih => simp [ih, bucketToDay_date hbd]

theorem forall₂_mem_right {R : DayBucket → ForecastDay → Prop} :
    ∀ {bs : List DayBucket} {ds : List ForecastDay}, List.Forall₂ R bs ds →
      ∀ fd ∈ ds, ∃ b ∈ bs, R b fd := by
  intro bs ds h
  induction h with
  | nil => intro fd hfd; cases hfd
  | cons hbd _ ih =>
    intro fd hfd
    rcases List.mem_cons.mp hfd with rfl | hfd'
    · exact ⟨_, List.mem_cons_self _ _, hbd⟩
    · rcases ih fd hfd' with ⟨b, hb, hR⟩
      exact ⟨b, List.mem_cons_of_mem _ hb, hR⟩

theorem chain'_le_head_le :
    ∀ (x : Nat) (l : List Nat), List.Chain' (· ≤ ·) (x :: l) → ∀ y ∈ l, x ≤ y
  | _, [], _, y, hy => absurd hy (List.not_mem_nil y)
  | x, z :: l, h, y, hy => by
    have hxz : x ≤ z := List.chain'_cons.mp h |>.1
    rcases List.mem_cons.mp hy with rfl | hy'
    · exact hxz
    · exact le_trans hxz (chain'_le_head_le z l (List.chain'_cons.mp h).2 y hy')

theorem chain'_le_pairwise :
    ∀ l : List Nat, List.Chain' (· ≤ ·) l → List.Pairwise (· ≤ ·) l
  | [], _ => List.Pairwise.nil
  | x :: l, h =>
    List.Pairwise.cons (chain'_le_head_le x l h) (chain'_le_pairwise l h.tail)

/-- The dates that `addSample` produces: either an in-place bucket
update (dates unchanged) or a fresh bucket appended at the end with a
date not yet present. -/
theorem addSample_dates (acc : List DayBucket) (s : Sample) :
    (addSample acc s).map DayBucket.date = acc.map DayBucket.date ∨
    ((addSample acc s).map DayBucket.date = acc.map DayBucket.date ++ [sampleDate s] ∧
      sampleDate s ∉ acc.map DayBucket.date) := by
  unfold addSample
  split
  · left
    rw [List.map_map]
    apply List.map_congr_left
    intro b _
    by_cases hd : b.date = sampleDate s
    · simp [hd]
    · simp [hd]
  · next hnone =>
    right
    refine ⟨by rw [List.map_append]; rfl, ?_⟩
    intro hmem
    rcases List.mem_map.mp hmem with ⟨b, hb, hbd⟩
    exact hnone (List.any_eq_true.mpr ⟨b, hb, by simpa using hbd⟩)

theorem groupByDate_dates_sorted_aux :
    ∀ (samples : List Sample) (acc : List DayBucket),
      List.Pairwise (fun s s' : Sample => sampleDate s ≤ sampleDate s') samples →
      List.Pairwise (· < ·) (acc.map DayBucket.date) →
      (∀ d ∈ acc.map DayBucket.date, ∀ s ∈ samples, d ≤ sampleDate s) →
      List.Pairwise (· < ·) ((samples.foldl addSample acc).map DayBucket.date)
  | [], _, _, hacc, _ => hacc
  | s :: rest, acc, hpair, hacc, hbound => by
    rw [List.foldl_cons]
    have hpair' := List.pairwise_cons.mp hpair
    rcases addSample_dates acc s with hdates | ⟨hdates, hnew⟩
    · apply groupByDate_dates_sorted_aux rest (addSample acc s) hpair'.2
      · rw [hdates]; exact hacc
      · intro d hd s' hs'
        rw [hdates] at hd
        exact hbound d hd s' (List.mem_cons_of_mem _ hs')
    · apply groupByDate_dates_sorted_aux rest (addSample acc s) hpair'.2
      · rw [hdates]
        apply List.pairwise_append.mpr
        refine ⟨hacc, List.pairwise_singleton _ _, ?_⟩
        intro d hd d' hd'
        rcases List.mem_singleton.mp hd' with rfl
        exact lt_of_le_of_ne (hbound d hd s (List.mem_cons_self s rest))
          (fun hEq => hnew (hEq ▸ hd))
      · intro d hd s' hs'
        rw [hdates] at hd
        rcases List.mem_append.mp hd with hd' | hd'
        · exact hbound d hd' s' (List.mem_cons_of_mem _ hs')
        · rcases List.mem_singleton.mp hd' with rfl
          exact hpair'.1 s' hs'

theorem groupByDate_dates_sorted (samples : List Sample)
    (hchron : List.Chain' (· ≤ ·) (samples.map Sample.dt)) :
    List.Pairwise (· < ·) ((groupByDate samples).map DayBucket.date) := by
  have hpdt : List.Pairwise (fun s s' : Sample => s.dt ≤ s'.dt) samples :=
    List.pairwise_map.mp (chain'_le_pairwise _ hchron)
  have hpair : List.Pairwise (fun s s' : Sample => sampleDate s ≤ sampleDate s') samples :=
    hpdt.imp fun h => Nat.div_le_div_right h
  exact groupByDate_dates_sorted_aux samples [] hpair List.Pairwise.nil
    (by intro d hd; cases hd)

/-- Claim C7: the forecast transformation groups samples by UTC
calendar day, and for chronologically ordered input emits the first
five day buckets with strictly increasing dates, each day carrying the
rounded maximum and rounded minimum of that day's sample temperatures;
in particular the spec's 8-sample example spanning two days with
temperatures [10,12,15,9,20,22,18,16] split 4/4 yields exactly two
days, the first with `highTemp = 15` and `lowTemp = 9`. -/
theorem forecast_grouping_spec :
    (∀ samples : List Sample, List.Chain' (· ≤ ·) (samples.map Sample.dt) →
      ∃ days, transformForecastList samples = some days ∧
        List.Pairwise (· < ·) (days.map ForecastDay.date) ∧
        days.length = min 5 (groupByDate samples).length ∧
        (∀ fd ∈ days, ∃ b ∈ (groupByDate samples).take 5, fd.date = b.date ∧
          (∃ hm, hm ∈ b.temps ∧ (∀ x ∈ b.temps, x ≤ hm) ∧ fd.highTemp = jsRound hm) ∧
          (∃ lm, lm ∈ b.temps ∧ (∀ x ∈ b.temps, lm ≤ x) ∧ fd.lowTemp = jsRound lm))) ∧
    transformForecastList
        [{ dt := 0, temp := 10, condition := "Clear", icon := "01d" },
         { dt := 10800, temp := 12, condition := "Clear", icon := "01d" },
         { dt := 21600, temp := 15, condition := "Clear", icon := "01d" },
         { dt := 32400, temp := 9, condition := "Clear", icon := "01d" },
         { dt := 86400, temp := 20, condition := "Clear", icon := "01d" },
         { dt := 97200, temp := 22, condition := "Clear", icon := "01d" },
         { dt := 108000, temp := 18, condition := "Clear", icon := "01d" },
         { dt := 118800, temp := 16, condition := "Clear", icon := "01d" }] =
      some [{ date := 0, highTemp := 15, lowTemp := 9, condition := "Clear", icon := "01d" },
            { date := 1, highTemp := 22, lowTemp := 16, condition := "Clear", icon := "01d" }] := by
  constructor
  · intro samples hchron
    have hne : ∀ b ∈ (groupByDate samples).take 5, ∃ fd, bucketToDay b = some fd := by
      intro b hb
      have hb' : b ∈ groupByDate samples := List.take_subset 5 _ hb
      rcases groupByDate_nonempty hb' with ⟨h1, h2, h3⟩
      rcases bucketToDay_spec b h1 h2 h3 with ⟨fd, hfd, _⟩
      exact ⟨fd, hfd⟩
    obtain ⟨ds, hds, hlen, hfa⟩ := forecastDays_forall _ hne
    refine ⟨ds, hds, ?_, ?_, ?_⟩
    · rw [forall₂_dates hfa, List.map_take]
      exact (groupByDate_dates_sorted samples hchron).sublist (List.take_sublist 5 _)
    · rw [hlen, List.length_take]
    · intro fd hfd
      rcases forall₂_mem_right hfa fd hfd with ⟨b, hb, hbfd⟩
      have hb' : b ∈ groupByDate samples := List.take_subset 5 _ hb
      rcases groupByDate_nonempty hb' with ⟨h1, h2, h3⟩
      rcases bucketToDay_spec b h1 h2 h3 with ⟨fd', hfd', hdate, hhigh, hlow⟩
      have : fd' = fd := by
        rw [hbfd] at hfd'
        exact (Option.some_inj.mp hfd').symm
      subst this
      exact ⟨b, hb, hdate, hhigh, hlow⟩
  · decide

/-- Witness for C7, instantiating the universal clause at the
two-day 8-sample example. -/
theorem forecast_grouping_spec_witness :
    ∃ days,
      transformForecastList
          [{ dt := 0, temp := 10, condition := "Clear", icon := "01d" },
           { dt := 10800, temp := 12, condition := "Clear", icon := "01d" },
           { dt := 21600, temp := 15, condition := "Clear", icon := "01d" },
           { dt := 32400, temp := 9, condition := "Clear", icon := "01d" },
           { dt := 86400, temp := 20, condition := "Clear", icon := "01d" },
           { dt := 97200, temp := 22, condition := "Clear", icon := "01d" },
           { dt := 108000, temp := 18, condition := "Clear", icon := "01d" },
           { dt := 118800, temp := 16, condition := "Clear", icon := "01d" }] = some days ∧
      List.Pairwise (· < ·) (days.map ForecastDay.date) ∧
      days.length = min 5 (groupByDate
          [{ dt := 0, temp := 10, condition := "Clear", icon := "01d" },
           { dt := 10800, temp := 12, condition := "Clear", icon := "01d" },
           { dt := 21600, temp := 15, condition := "Clear", icon := "01d" },
           { dt := 32400, temp := 9, condition := "Clear", icon := "01d" },
           { dt := 86400, temp := 20, condition := "Clear", icon := "01d" },
           { dt := 97200, temp := 22, condition := "Clear", icon := "01d" },
           { dt := 108000, temp := 18, condition := "Clear", icon := "01d" },
           { dt := 118800, temp := 16, condition := "Clear", icon := "01d" }]).length ∧
      (∀ fd ∈ days, ∃ b ∈ (groupByDate
          [{ dt := 0, temp := 10, condition := "Clear", icon := "01d" },
           { dt := 10800, temp := 12, condition := "Clear", icon := "01d" },
           { dt := 21600, temp := 15, condition := "Clear", icon := "01d" },
           { dt := 32400, temp := 9, condition := "Clear", icon := "01d" },
           { dt := 86400, temp := 20, condition := "Clear", icon := "01d" },
           { dt := 97200, temp := 22, condition := "Clear", icon := "01d" },
           { dt := 108000, temp := 18, condition := "Clear", icon := "01d" },
           { dt := 118800, temp := 16, condition := "Clear", icon := "01d" }]).take 5,
        fd.date = b.date ∧
        (∃ hm, hm ∈ b.temps ∧ (∀ x ∈ b.temps, x ≤ hm) ∧ fd.highTemp = jsRound hm) ∧
        (∃ lm, lm ∈ b.temps ∧ (∀ x ∈ b.temps, lm ≤ x) ∧ fd.lowTemp = jsRound lm)) :=
  forecast_grouping_spec.1
    [{ dt := 0, temp := 10, condition := "Clear", icon := "01d" },
     { dt := 10800, temp := 12, condition := "Clear", icon := "01d" },
     { dt := 21600, temp := 15, condition := "Clear", icon := "01d" },
     { dt := 32400, temp := 9, condition := "Clear", icon := "01d" },
     { dt := 86400, temp := 20, condition := "Clear", icon := "01d" },
     { dt := 97200, temp := 22, condition := "Clear", icon := "01d" },
     { dt := 108000, temp := 18, condition := "Clear", icon := "01d" },
     { dt := 118800, temp := 16, condition := "Clear", icon := "01d" }]
    (by simp [List.chain'_cons])

/-! ## Character-class lemmas (C4) -/

theorem toNat_ofNat_lt {n : Nat} (h : n < 0xD800) : (Char.ofNat n).toNat = n := by
  unfold Char.ofNat
  rw [dif_pos (Or.inl h)]
  rfl

theorem punct_not_space {c : Char} (h : isPunct c = true) : isJsSpace c = false := by
  rw [Bool.eq_false_iff]
  intro hs
  simp only [isPunct, Bool.or_eq_true, decide_eq_true_eq] at h
  simp only [isJsSpace, Bool.or_eq_true, Bool.and_eq_true, decide_eq_true_eq] at hs
  omega

theorem space_not_word {c : Char} (h : isJsSpace c = true) : isWordChar c = false := by
  rw [Bool.eq_false_iff]
  intro hw
  simp only [isJsSpace, Bool.or_eq_true, Bool.and_eq_true, decide_eq_true_eq] at h
  simp only [isWordChar, Bool.or_eq_true, Bool.and_eq_true, decide_eq_true_eq] at hw
  omega

theorem jsToUpper_toNat_of_lower {c : Char} (h : 97 ≤ c.toNat ∧ c.toNat ≤ 122) :
    (jsToUpper c).toNat = c.toNat - 32 := by
  unfold jsToUpper
  rw [if_pos h]
  exact toNat_ofNat_lt (by omega)

theorem jsToUpper_eq_of_not_lower {c : Char} (h : ¬(97 ≤ c.toNat ∧ c.toNat ≤ 122)) :
    jsToUpper c = c := by
  unfold jsToUpper
  rw [if_neg h]

theorem isWordChar_jsToUpper (c : Char) : isWordChar (jsToUpper c) = isWordChar c := by
  by_cases h : 97 ≤ c.toNat ∧ c.toNat ≤ 122
  · have ht := jsToUpper_toNat_of_lower h
    rw [Bool.eq_iff_iff]
    simp only [isWordChar, Bool.or_eq_true, Bool.and_eq_true, decide_eq_true_eq, ht]
    omega
  · rw [jsToUpper_eq_of_not_lower h]

theorem isJsSpace_jsToUpper (c : Char) : isJsSpace (jsToUpper c) = isJsSpace c := by
  by_cases h : 97 ≤ c.toNat ∧ c.toNat ≤ 122
  · have ht := jsToUpper_toNat_of_lower h
    rw [Bool.eq_iff_iff]
    simp only [isJsSpace, Bool.or_eq_true, Bool.and_eq_true, decide_eq_true_eq, ht]
    omega
  · rw [jsToUpper_eq_of_not_lower h]

theorem isPunct_jsToUpper (c : Char) : isPunct (jsToUpper c) = isPunct c := by
  by_cases h : 97 ≤ c.toNat ∧ c.toNat ≤ 122
  · have ht := jsToUpper_toNat_of_lower h
    rw [Bool.eq_iff_iff]
    simp only [isPunct, Bool.or_eq_true, decide_eq_true_eq, ht]
    omega
  · rw [jsToUpper_eq_of_not_lower h]

theorem jsToUpper_idem (c : Char) : jsToUpper (jsToUpper c) = jsToUpper c := by
  by_cases h : 97 ≤ c.toNat ∧ c.toNat ≤ 122
  · have ht := jsToUpper_toNat_of_lower h
    apply jsToUpper_eq_of_not_lower
    rw [ht]
    omega
  · rw [jsToUpper_eq_of_not_lower h, jsToUpper_eq_of_not_lower h]

/-! ## Structural lemmas for the normal-form predicates -/

theorem noAdj_cons_eq (p : Char → Bool) (c : Char) (l : List Char) :
    noAdj p (c :: l) = (!(p c && headHas p l) && noAdj p l) := by
  cases l with
  | nil => simp [noAdj, headHas]
  | cons d rest => rfl

theorem headHas_append (p : Char → Bool) {l : List Char} (h : l ≠ []) (l' : List Char) :
    headHas p (l ++ l') = headHas p l := by
  cases l with
  | nil => exact absurd rfl h
  | cons c rest => rfl

theorem lastHas_cons (p : Char → Bool) (c : Char) {l : List Char} (h : l ≠ []) :
    lastHas p (c :: l) = lastHas p l := by
  unfold lastHas
  rw [List.reverse_cons]
  exact headHas_append p (by simpa using h) [c]

/-! ## Identity lemmas: each stage fixes its normal form (C4) -/

theorem dropWhile_id {p : Char → Bool} {l : List Char} (h : headHas p l = false) :
    l.dropWhile p = l := by
  cases l with
  | nil => rfl
  | cons c rest =>
    rw [List.dropWhile_cons]
    rw [if_neg (by simp [headHas] at h; simp [h])]

theorem jsTrim_id {l : List Char} (hh : headHas isJsSpace l = false)
    (hl : lastHas isJsSpace l = false) : jsTrim l = l := by
  unfold jsTrim
  rw [dropWhile_id hh, dropWhile_id hl, List.reverse_reverse]

theorem collapseSpacesAux_id :
    ∀ l : List Char, spacesSimple l = true → noAdj isJsSpace l = true →
      (collapseSpacesAux false l = l ∧
        (headHas isJsSpace l = false → collapseSpacesAux true l = l))
  | [], _, _ => ⟨rfl, fun _ => rfl⟩
  | c :: rest, hs, ha => by
    have hs' : spacesSimple rest = true := by
      simp only [spacesSimple, List.all_cons, Bool.and_eq_true] at hs
      exact hs.2
    have hsc : (!isJsSpace c || c = ' ') = true := by
      simp only [spacesSimple, List.all_cons, Bool.and_eq_true] at hs
      simpa using hs.1
    rw [noAdj_cons_eq, Bool.and_eq_true] at ha
    have ha' : noAdj isJsSpace rest = true := ha.2
    have hpair : (!(isJsSpace c && headHas isJsSpace rest)) = true := ha.1
    obtain ⟨ih0, ih1⟩ := collapseSpacesAux_id rest hs' ha'
    constructor
    · show collapseSpacesAux false (c :: rest) = c :: rest
      unfold collapseSpacesAux
      cases hc : isJsSpace c with
      | false => simp [hc, ih0]
      | true =>
        have hcsp : c = ' ' := by
          rw [hc] at hsc
          simpa using hsc
        have hhr : headHas isJsSpace rest = false := by
          rw [hc] at hpair
          simpa using hpair
        simp [hc, ih1 hhr, hcsp]
    · intro hh
      have hc : isJsSpace c = false := by simpa [headHas] using hh
      show collapseSpacesAux true (c :: rest) = c :: rest
      unfold collapseSpacesAux
      simp [hc, ih0]

theorem collapsePunctAux_id :
    ∀ l : List Char, noAdj isPunct l = true →
      (collapsePunctAux false l = l ∧
        (headHas isPunct l = false → collapsePunctAux true l = l))
  | [], _ => ⟨rfl, fun _ => rfl⟩
  | c :: rest, ha => by
    rw [noAdj_cons_eq, Bool.and_eq_true] at ha
    have ha' : noAdj isPunct rest = true := ha.2
    have hpair : (!(isPunct c && headHas isPunct rest)) = true := ha.1
    obtain ⟨ih0, ih1⟩ := collapsePunctAux_id rest ha'
    constructor
    · show collapsePunctAux false (c :: rest) = c :: rest
      unfold collapsePunctAux
      cases hc : isPunct c with
      | false => simp [hc, ih0]
      | true =>
        have hhr : headHas isPunct rest = false := by
          rw [hc] at hpair
          simpa using hpair
        simp [hc, ih1 hhr]
    · intro hh
      have hc : isPunct c = false := by simpa [headHas] using hh
      show collapsePunctAux true (c :: rest) = c :: rest
      unfold collapsePunctAux
      simp [hc, ih0]

theorem upperBoundaryAux_id :
    ∀ (l : List Char) (prev : Bool), okUpper prev l = true → upperBoundaryAux prev l = l
  | [], _, _ => rfl
  | c :: rest, prev, h => by
    unfold okUpper at h
    rw [Bool.and_eq_true] at h
    obtain ⟨hc, hrest⟩ := h
    unfold upperBoundaryAux
    split
    · next hw =>
      have hwc : isWordChar c = true := hw.1
      have hprev : prev = false := by
        cases prev
        · rfl
        · exact absurd rfl hw.2
      have hup : jsToUpper c = c := by
        rw [hwc, hprev] at hc
        simpa using hc
      rw [hwc] at hrest
      rw [hup, upperBoundaryAux_id rest true hrest]
    · rw [upperBoundaryAux_id rest (isWordChar c) hrest]

theorem expandWordAux_id (x y : Char) :
    ∀ (l : List Char) (prev : Bool), hasWordTokenAux x y prev l = false →
      expandWordAux x y prev l = l
  | [], _, _ => rfl
  | [c], _, _ => rfl
  | c₁ :: c₂ :: rest, prev, h => by
    unfold hasWordTokenAux at h
    rw [Bool.or_eq_false_iff] at h
    obtain ⟨h1, h2⟩ := h
    unfold expandWordAux
    rw [if_neg (of_decide_eq_false h1)]
    rw [expandWordAux_id x y (c₂ :: rest) (isWordChar c₁) h2]

/-! ## Establishment lemmas: each stage produces its normal form (C4) -/

theorem lastHas_reverse (p : Char → Bool) (m : List Char) :
    lastHas p m.reverse = headHas p m := by
  unfold lastHas
  rw [List.reverse_reverse]

theorem headHas_dropWhile (p : Char → Bool) :
    ∀ l : List Char, headHas p (l.dropWhile p) = false
  | [] => rfl
  | c :: rest => by
    rw [List.dropWhile_cons]
    split
    · exact headHas_dropWhile p rest
    · next hc => simpa [headHas] using hc

theorem lastHas_dropWhile (p : Char → Bool) :
    ∀ l : List Char, lastHas p l = false → lastHas p (l.dropWhile p) = false
  | [], h => h
  | c :: rest, h => by
    rw [List.dropWhile_cons]
    split
    · next hc =>
      rcases rest with _ | ⟨d, rest'⟩
      · exfalso
        have : p c = false := by simpa [lastHas, headHas] using h
        rw [hc] at this
        cases this
      · have h' : lastHas p (d :: rest') = false := by
          rw [lastHas_cons p c (by simp)] at h
          exact h
        exact lastHas_dropWhile p (d :: rest') h'
    · exact h

theorem jsTrim_heads (l : List Char) :
    headHas isJsSpace (jsTrim l) = false ∧ lastHas isJsSpace (jsTrim l) = false := by
  unfold jsTrim
  constructor
  · show lastHas isJsSpace ((l.dropWhile isJsSpace).reverse.dropWhile isJsSpace) = false
    apply lastHas_dropWhile
    rw [lastHas_reverse]
    exact headHas_dropWhile isJsSpace l
  · rw [lastHas_reverse]
    exact headHas_dropWhile isJsSpace _

theorem csAux_props :
    ∀ (l : List Char) (flag : Bool),
      spacesSimple (collapseSpacesAux flag l) = true ∧
      noAdj isJsSpace (collapseSpacesAux flag l) = true ∧
      (flag = true → headHas isJsSpace (collapseSpacesAux flag l) = false)
  | [], _ => ⟨rfl, rfl, fun _ => rfl⟩
  | c :: rest, flag => by
    obtain ⟨ihs, iha, ihh⟩ := csAux_props rest true
    obtain ⟨ihs0, iha0, _⟩ := csAux_props rest false
    cases hc : isJsSpace c with
    | true =>
      cases flag with
      | true =>
        have hred : collapseSpacesAux true (c :: rest) = collapseSpacesAux true rest := by
          simp [collapseSpacesAux, hc]
        rw [hred]
        exact ⟨ihs, iha, fun _ => ihh rfl⟩
      | false =>
        have hred : collapseSpacesAux false (c :: rest) =
            ' ' :: collapseSpacesAux true rest := by
          simp [collapseSpacesAux, hc]
        rw [hred]
        refine ⟨?_, ?_, fun h => by cases h⟩
        · have hsp : ((!isJsSpace ' ' || (' ' = ' ' : Bool)) : Bool) = true := by decide
          show List.all _ _ = true
          rw [List.all_cons, hsp, Bool.true_and]
          exact ihs
        · rw [noAdj_cons_eq, ihh rfl]
          simp [iha]
    | false =>
      have hred : collapseSpacesAux flag (c :: rest) =
          c :: collapseSpacesAux false rest := by
        cases flag <;> simp [collapseSpacesAux, hc]
      rw [hred]
      refine ⟨?_, ?_, fun _ => by simp [headHas, hc]⟩
      · show List.all _ _ = true
        rw [List.all_cons]
        have hpc : (!isJsSpace c || (c = ' ' : Bool)) = true := by
          rw [hc]
          rfl
        rw [hpc, Bool.true_and]
        exact ihs0
      · rw [noAdj_cons_eq, hc]
        simp [iha0]

theorem csAux_head {l : List Char} (h : headHas isJsSpace l = false) :
    headHas isJsSpace (collapseSpacesAux false l) = false := by
  cases l with
  | nil => rfl
  | cons c rest =>
    have hc : isJsSpace c = false := by simpa [headHas] using h
    have hred : collapseSpacesAux false (c :: rest) =
        c :: collapseSpacesAux false rest := by
      simp [collapseSpacesAux, hc]
    rw [hred]
    simpa [headHas] using hc

theorem cs_last :
    ∀ (l : List Char) (flag : Bool), lastHas isJsSpace l = false →
      (collapseSpacesAux flag l = [] → l = []) ∧
      lastHas isJsSpace (collapseSpacesAux flag l) = false
  | [], _, _ => ⟨fun _ => rfl, rfl⟩
  | c :: rest, flag, h => by
    cases hc : isJsSpace c with
    | false =>
      have hred : collapseSpacesAux flag (c :: rest) =
          c :: collapseSpacesAux false rest := by
        cases flag <;> simp [collapseSpacesAux, hc]
      rw [hred]
      refine ⟨(fun habs => by cases habs), ?_⟩
      rcases rest with _ | ⟨d, rest'⟩
      · show lastHas isJsSpace [c] = false
        simpa [lastHas, headHas] using hc
      · have hrest : lastHas isJsSpace (d :: rest') = false := by
          rw [lastHas_cons isJsSpace c (by simp)] at h
          exact h
        obtain ⟨hnil, hlast⟩ := cs_last (d :: rest') false hrest
        rcases hout : collapseSpacesAux false (d :: rest') with _ | ⟨e, out'⟩
        · exact absurd (hnil hout) (by simp)
        · rw [← hout]
          rw [lastHas_cons isJsSpace c (by rw [hout]; simp)]
          exact hlast
    | true =>
      rcases rest with _ | ⟨d, rest'⟩
      · exfalso
        have : isJsSpace c = false := by simpa [lastHas, headHas] using h
        rw [hc] at this
        cases this
      · have hrest : lastHas isJsSpace (d :: rest') = false := by
          rw [lastHas_cons isJsSpace c (by simp)] at h
          exact h
        obtain ⟨hnil, hlast⟩ := cs_last (d :: rest') true hrest
        cases flag with
        | true =>
          have hred : collapseSpacesAux true (c :: d :: rest') =
              collapseSpacesAux true (d :: rest') := by
            simp [collapseSpacesAux, hc]
          rw [hred]
          exact ⟨fun habs => absurd (hnil habs) (by simp), hlast⟩
        | false =>
          have hred : collapseSpacesAux false (c :: d :: rest') =
              ' ' :: collapseSpacesAux true (d :: rest') := by
            simp [collapseSpacesAux, hc]
          rw [hred]
          refine ⟨(fun habs => by cases habs), ?_⟩
          rcases hout : collapseSpacesAux true (d :: rest') with _ | ⟨e, out'⟩
          · exact absurd (hnil hout) (by simp)
          · rw [← hout]
            rw [lastHas_cons isJsSpace ' ' (by rw [hout]; simp)]
            exact hlast

theorem cpAux_false_head (q : Char → Bool) :
    ∀ l : List Char, headHas q (collapsePunctAux false l) = headHas q l
  | [] => rfl
  | c :: rest => by
    cases hc : isPunct c with
    | true =>
      have hred : collapsePunctAux false (c :: rest) =
          c :: collapsePunctAux true rest := by
        simp [collapsePunctAux, hc]
      rw [hred]
      rfl
    | false =>
      have hred : collapsePunctAux false (c :: rest) =
          c :: collapsePunctAux false rest := by
        simp [collapsePunctAux, hc]
      rw [hred]
      rfl

theorem cpAux_false_nil :
    ∀ l : List Char, collapsePunctAux false l = [] → l = []
  | [], _ => rfl
  | c :: rest, h => by
    exfalso
    cases hc : isPunct c with
    | true =>
      have hred : collapsePunctAux false (c :: rest) =
          c :: collapsePunctAux true rest := by
        simp [collapsePunctAux, hc]
      rw [hred] at h
      cases h
    | false =>
      have hred : collapsePunctAux false (c :: rest) =
          c :: collapsePunctAux false rest := by
        simp [collapsePunctAux, hc]
      rw [hred] at h
      cases h

theorem cp_last :
    ∀ (l : List Char) (flag : Bool), lastHas isJsSpace l = false →
      lastHas isJsSpace (collapsePunctAux flag l) = false
  | [], _, _ => rfl
  | c :: rest, flag, h => by
    have hrest : rest ≠ [] → lastHas isJsSpace rest = false := by
      intro hne
      rw [lastHas_cons isJsSpace c hne] at h
      exact h
    cases hc : isPunct c with
    | true =>
      cases flag with
      | true =>
        have hred : collapsePunctAux true (c :: rest) = collapsePunctAux true rest := by
          simp [collapsePunctAux, hc]
        rw [hred]
        rcases rest with _ | ⟨d, rest'⟩
        · rfl
        · exact cp_last (d :: rest') true (hrest (by simp))
      | false =>
        have hred : collapsePunctAux false (c :: rest) =
            c :: collapsePunctAux true rest := by
          simp [collapsePunctAux, hc]
        rw [hred]
        rcases hout : collapsePunctAux true rest with _ | ⟨e, out'⟩
        · show lastHas isJsSpace [c] = false
          simpa [lastHas, headHas] using punct_not_space hc
        · rw [← hout]
          rw [lastHas_cons isJsSpace c (by rw [hout]; simp)]
          rcases rest with _ | ⟨d, rest'⟩
          · rw [show collapsePunctAux true ([] : List Char) = [] from rfl] at hout
            cases hout
          · exact cp_last (d :: rest') true (hrest (by simp))
    | false =>
      have hred : collapsePunctAux flag (c :: rest) =
          c :: collapsePunctAux false rest := by
        cases flag <;> simp [collapsePunctAux, hc]
      rw [hred]
      rcases hout : collapsePunctAux false rest with _ | ⟨e, out'⟩
      · have : rest = [] := cpAux_false_nil rest hout
        subst this
        show lastHas isJsSpace [c] = false
        simpa [lastHas, headHas] using h
      · rw [← hout]
        rw [lastHas_cons isJsSpace c (by rw [hout]; simp)]
        rcases rest with _ | ⟨d, rest'⟩
        · rw [show collapsePunctAux false ([] : List Char) = [] from rfl] at hout
          cases hout
        · exact cp_last (d :: rest') false (hrest (by simp))

theorem cpAux_mem :
    ∀ (l : List Char) (flag : Bool) (d : Char),
      d ∈ collapsePunctAux flag l → d ∈ l
  | [], _, _, h => by cases h
  | c :: rest, flag, d, h => by
    cases hc : isPunct c with
    | true =>
      cases flag with
      | true =>
        have hred : collapsePunctAux true (c :: rest) = collapsePunctAux true rest := by
          simp [collapsePunctAux, hc]
        rw [hred] at h
        exact List.mem_cons_of_mem _ (cpAux_mem rest true d h)
      | false =>
        have hred : collapsePunctAux false (c :: rest) =
            c :: collapsePunctAux true rest := by
          simp [collapsePunctAux, hc]
        rw [hred] at h
        rcases List.mem_cons.mp h with rfl | h'
        · exact List.mem_cons_self _ _
        · exact List.mem_cons_of_mem _ (cpAux_mem rest true d h')
    | false =>
      have hred : collapsePunctAux flag (c :: rest) =
          c :: collapsePunctAux false rest := by
        cases flag <;> simp [collapsePunctAux, hc]
      rw [hred] at h
      rcases List.mem_cons.mp h with rfl | h'
      · exact List.mem_cons_self _ _
      · exact List.mem_cons_of_mem _ (cpAux_mem rest false d h')

theorem cp_spacesSimple {l : List Char} (h : spacesSimple l = true) (flag : Bool) :
    spacesSimple (collapsePunctAux flag l) = true := by
  rw [spacesSimple, List.all_eq_true] at h ⊢
  intro d hd
  exact h d (cpAux_mem l flag d hd)

theorem cp_noAdj_space :
    ∀ (l : List Char) (flag : Bool), noAdj isJsSpace l = true →
      noAdj isJsSpace (collapsePunctAux flag l) = true
  | [], _, _ => rfl
  | c :: rest, flag, h => by
    rw [noAdj_cons_eq, Bool.and_eq_true] at h
    obtain ⟨hpair, hrest⟩ := h
    cases hc : isPunct c with
    | true =>
      cases flag with
      | true =>
        have hred : collapsePunctAux true (c :: rest) = collapsePunctAux true rest := by
          simp [collapsePunctAux, hc]
        rw [hred]
        exact cp_noAdj_space rest true hrest
      | false =>
        have hred : collapsePunctAux false (c :: rest) =
            c :: collapsePunctAux true rest := by
          simp [collapsePunctAux, hc]
        rw [hred, noAdj_cons_eq, punct_not_space hc]
        simp [cp_noAdj_space rest true hrest]
    | false =>
      have hred : collapsePunctAux flag (c :: rest) =
          c :: collapsePunctAux false rest := by
        cases flag <;> simp [collapsePunctAux, hc]
      rw [hred, noAdj_cons_eq, cpAux_false_head isJsSpace rest]
      rw [Bool.and_eq_true]
      exact ⟨hpair, cp_noAdj_space rest false hrest⟩

theorem cpAux_true_head_npunct :
    ∀ l : List Char, headHas isPunct (collapsePunctAux true l) = false
  | [] => rfl
  | c :: rest => by
    cases hc : isPunct c with
    | true =>
      have hred : collapsePunctAux true (c :: rest) = collapsePunctAux true rest := by
        simp [collapsePunctAux, hc]
      rw [hred]
      exact cpAux_true_head_npunct rest
    | false =>
      have hred : collapsePunctAux true (c :: rest) =
          c :: collapsePunctAux false rest := by
        simp [collapsePunctAux, hc]
      rw [hred]
      simpa [headHas] using hc

theorem cp_noAdj_punct :
    ∀ (l : List Char) (flag : Bool), noAdj isPunct (collapsePunctAux flag l) = true
  | [], _ => rfl
  | c :: rest, flag => by
    cases hc : isPunct c with
    | true =>
      cases flag with
      | true =>
        have hred : collapsePunctAux true (c :: rest) = collapsePunctAux true rest := by
          simp [collapsePunctAux, hc]
        rw [hred]
        exact cp_noAdj_punct rest true
      | false =>
        have hred : collapsePunctAux false (c :: rest) =
            c :: collapsePunctAux true rest := by
          simp [collapsePunctAux, hc]
        rw [hred, noAdj_cons_eq, cpAux_true_head_npunct rest]
        simp [cp_noAdj_punct rest true]
    | false =>
      have hred : collapsePunctAux flag (c :: rest) =
          c :: collapsePunctAux false rest := by
        cases flag <;> simp [collapsePunctAux, hc]
      rw [hred, noAdj_cons_eq, hc]
      simp [cp_noAdj_punct rest false]

theorem up_headHas (q : Char → Bool) (hq : ∀ c, q (jsToUpper c) = q c) :
    ∀ (prev : Bool) (l : List Char),
      headHas q (upperBoundaryAux prev l) = headHas q l
  | _, [] => rfl
  | prev, c :: rest => by
    by_cases hw : isWordChar c = true ∧ ¬ prev = true
    · have hred : upperBoundaryAux prev (c :: rest) =
          jsToUpper c :: upperBoundaryAux true rest := by
        simp only [upperBoundaryAux]
        rw [if_pos hw]
      rw [hred]
      show q (jsToUpper c) = q c
      exact hq c
    · have hred : upperBoundaryAux prev (c :: rest) =
          c :: upperBoundaryAux (isWordChar c) rest := by
        simp only [upperBoundaryAux]
        rw [if_neg hw]
      rw [hred]
      rfl

theorem up_ne_nil (prev : Bool) (c : Char) (rest : List Char) :
    upperBoundaryAux prev (c :: rest) ≠ [] := by
  by_cases hw : isWordChar c = true ∧ ¬ prev = true
  · have hred : upperBoundaryAux prev (c :: rest) =
        jsToUpper c :: upperBoundaryAux true rest := by
      simp only [upperBoundaryAux]
      rw [if_pos hw]
    rw [hred]
    simp
  · have hred : upperBoundaryAux prev (c :: rest) =
        c :: upperBoundaryAux (isWordChar c) rest := by
      simp only [upperBoundaryAux]
      rw [if_neg hw]
    rw [hred]
    simp

theorem up_spacesSimple :
    ∀ (prev : Bool) (l : List Char), spacesSimple l = true →
      spacesSimple (upperBoundaryAux prev l) = true
  | _, [], _ => rfl
  | prev, c :: rest, h => by
    rw [spacesSimple, List.all_cons, Bool.and_eq_true] at h
    obtain ⟨hpc, hrest⟩ := h
    by_cases hw : isWordChar c = true ∧ ¬ prev = true
    · have hred : upperBoundaryAux prev (c :: rest) =
          jsToUpper c :: upperBoundaryAux true rest := by
        simp only [upperBoundaryAux]
        rw [if_pos hw]
      rw [hred, spacesSimple, List.all_cons, Bool.and_eq_true]
      have hsp : isJsSpace c = false := by
        cases hs : isJsSpace c
        · rfl
        · rw [space_not_word hs] at hw
          exact absurd hw.1 (by simp)
      refine ⟨?_, up_spacesSimple true rest hrest⟩
      rw [isJsSpace_jsToUpper, hsp]
      rfl
    · have hred : upperBoundaryAux prev (c :: rest) =
          c :: upperBoundaryAux (isWordChar c) rest := by
        simp only [upperBoundaryAux]
        rw [if_neg hw]
      rw [hred, spacesSimple, List.all_cons, Bool.and_eq_true]
      exact ⟨hpc, up_spacesSimple (isWordChar c) rest hrest⟩

theorem up_noAdj (q : Char → Bool) (hq : ∀ c, q (jsToUpper c) = q c) :
    ∀ (prev : Bool) (l : List Char), noAdj q l = true →
      noAdj q (upperBoundaryAux prev l) = true
  | _, [], _ => rfl
  | prev, c :: rest, h => by
    rw [noAdj_cons_eq, Bool.and_eq_true] at h
    obtain ⟨hpair, hrest⟩ := h
    by_cases hw : isWordChar c = true ∧ ¬ prev = true
    · have hred : upperBoundaryAux prev (c :: rest) =
          jsToUpper c :: upperBoundaryAux true rest := by
        simp only [upperBoundaryAux]
        rw [if_pos hw]
      rw [hred, noAdj_cons_eq, up_headHas q hq true rest, hq c, Bool.and_eq_true]
      exact ⟨hpair, up_noAdj q hq true rest hrest⟩
    · have hred : upperBoundaryAux prev (c :: rest) =
          c :: upperBoundaryAux (isWordChar c) rest := by
        simp only [upperBoundaryAux]
        rw [if_neg hw]
      rw [hred, noAdj_cons_eq, up_headHas q hq (isWordChar c) rest, Bool.and_eq_true]
      exact ⟨hpair, up_noAdj q hq (isWordChar c) rest hrest⟩

theorem up_lastHas (q : Char → Bool) (hq : ∀ c, q (jsToUpper c) = q c) :
    ∀ (prev : Bool) (l : List Char), lastHas q l = false →
      lastHas q (upperBoundaryAux prev l) = false
  | _, [], _ => rfl
  | prev, c :: rest, h => by
    by_cases hw : isWordChar c = true ∧ ¬ prev = true
    · have hred : upperBoundaryAux prev (c :: rest) =
          jsToUpper c :: upperBoundaryAux true rest := by
        simp only [upperBoundaryAux]
        rw [if_pos hw]
      rw [hred]
      rcases rest with _ | ⟨d, rest'⟩
      · show lastHas q [jsToUpper c] = false
        have hqc : q c = false := by simpa [lastHas, headHas] using h
        simpa [lastHas, headHas, hq c] using hqc
      · have h' : lastHas q (d :: rest') = false := by
          rw [lastHas_cons q c (by simp)] at h
          exact h
        rw [lastHas_cons q (jsToUpper c) (up_ne_nil true d rest')]
        exact up_lastHas q hq true (d :: rest') h'
    · have hred : upperBoundaryAux prev (c :: rest) =
          c :: upperBoundaryAux (isWordChar c) rest := by
        simp only [upperBoundaryAux]
        rw [if_neg hw]
      rw [hred]
      rcases rest with _ | ⟨d, rest'⟩
      · show lastHas q [c] = false
        simpa [lastHas, headHas] using h
      · have h' : lastHas q (d :: rest') = false := by
          rw [lastHas_cons q c (by simp)] at h
          exact h
        rw [lastHas_cons q c (up_ne_nil (isWordChar c) d rest')]
        exact up_lastHas q hq (isWordChar c) (d :: rest') h'

theorem up_okUpper :
    ∀ (l : List Char) (prev : Bool), okUpper prev (upperBoundaryAux prev l) = true
  | [], _ => rfl
  | c :: rest, prev => by
    by_cases hw : isWordChar c = true ∧ ¬ prev = true
    · have hred : upperBoundaryAux prev (c :: rest) =
          jsToUpper c :: upperBoundaryAux true rest := by
        simp only [upperBoundaryAux]
        rw [if_pos hw]
      rw [hred]
      unfold okUpper
      rw [Bool.and_eq_true]
      constructor
      · rw [decide_eq_true (jsToUpper_idem c), Bool.or_true]
      · rw [isWordChar_jsToUpper, hw.1]
        exact up_okUpper rest true
    · have hred : upperBoundaryAux prev (c :: rest) =
          c :: upperBoundaryAux (isWordChar c) rest := by
        simp only [upperBoundaryAux]
        rw [if_neg hw]
      rw [hred]
      unfold okUpper
      rw [Bool.and_eq_true]
      constructor
      · have hfac : (isWordChar c && !prev) = false := by
          cases hwc : isWordChar c with
          | false => rfl
          | true =>
            cases hp : prev with
            | true => rfl
            | false => exact absurd ⟨hwc, by rw [hp]; simp⟩ hw
        rw [hfac]
        rfl
      · exact up_okUpper rest (isWordChar c)

/-- Claim C4 (amended): `formatLocationName` is idempotent on every
validator-accepted input on which the `St`/`Mt`/`Ft` abbreviation rules
do not fire, i.e. whose trimmed, whitespace- and punctuation-collapsed,
title-cased form contains no standalone word `St`, `Mt` or `Ft`.  (On
inputs such as `"St"` it is not idempotent — see
the accompanying counterexample — because the expansion re-matches its
own output.) -/
theorem formatLocationName_idempotent_without_abbrev (x : String)
    (hacc : (validateLocationInput x).isValid = true)
    (hS : hasWordToken 'S' 't' (preFormat x) = false)
    (hM : hasWordToken 'M' 't' (preFormat x) = false)
    (hF : hasWordToken 'F' 't' (preFormat x) = false) :
    formatLocationName (formatLocationName x) = formatLocationName x := by
  have hne : x.data ≠ [] := by
    intro h
    unfold validateLocationInput at hacc
    rw [if_pos h] at hacc
    cases hacc
  have e1 : expandWord 'S' 't' (preFormat x) = preFormat x :=
    expandWordAux_id 'S' 't' (preFormat x) false hS
  have e2 : expandWord 'M' 't' (preFormat x) = preFormat x :=
    expandWordAux_id 'M' 't' (preFormat x) false hM
  have e3 : expandWord 'F' 't' (preFormat x) = preFormat x :=
    expandWordAux_id 'F' 't' (preFormat x) false hF
  have hfx : formatLocationName x = String.mk (preFormat x) := by
    unfold formatLocationName
    rw [if_neg hne]
    rw [show expandWord 'S' 't' (preFormat x) = preFormat x from e1, e2, e3]
  obtain ⟨hth, htl⟩ := jsTrim_heads x.data
  obtain ⟨hsv, hav, _⟩ := csAux_props (jsTrim x.data) false
  have hheadv : headHas isJsSpace (collapseSpacesAux false (jsTrim x.data)) = false :=
    csAux_head hth
  have hlastv : lastHas isJsSpace (collapseSpacesAux false (jsTrim x.data)) = false :=
    (cs_last (jsTrim x.data) false htl).2
  have hsw : spacesSimple
      (collapsePunctAux false (collapseSpacesAux false (jsTrim x.data))) = true :=
    cp_spacesSimple hsv false
  have haw : noAdj isJsSpace
      (collapsePunctAux false (collapseSpacesAux false (jsTrim x.data))) = true :=
    cp_noAdj_space (collapseSpacesAux false (jsTrim x.data)) false hav
  have hpw : noAdj isPunct
      (collapsePunctAux false (collapseSpacesAux false (jsTrim x.data))) = true :=
    cp_noAdj_punct (collapseSpacesAux false (jsTrim x.data)) false
  have hheadw : headHas isJsSpace
      (collapsePunctAux false (collapseSpacesAux false (jsTrim x.data))) = false := by
    rw [cpAux_false_head]
    exact hheadv
  have hlastw : lastHas isJsSpace
      (collapsePunctAux false (collapseSpacesAux false (jsTrim x.data))) = false :=
    cp_last (collapseSpacesAux false (jsTrim x.data)) false hlastv
  have hsz : spacesSimple (preFormat x) = true :=
    up_spacesSimple false _ hsw
  have haz : noAdj isJsSpace (preFormat x) = true :=
    up_noAdj isJsSpace isJsSpace_jsToUpper false _ haw
  have hpz : noAdj isPunct (preFormat x) = true :=
    up_noAdj isPunct isPunct_jsToUpper false _ hpw
  have hheadz : headHas isJsSpace (preFormat x) = false := by
    show headHas isJsSpace (upperBoundaryAux false
      (collapsePunctAux false (collapseSpacesAux false (jsTrim x.data)))) = false
    rw [up_headHas isJsSpace isJsSpace_jsToUpper]
    exact hheadw
  have hlastz : lastHas isJsSpace (preFormat x) = false :=
    up_lastHas isJsSpace isJsSpace_jsToUpper false _ hlastw
  have hokz : okUpper false (preFormat x) = true :=
    up_okUpper (collapsePunctAux false (collapseSpacesAux false (jsTrim x.data))) false
  have hzz : preFormat (String.mk (preFormat x)) = preFormat x := by
    show upperBoundary (collapsePunct (collapseSpaces
      (jsTrim (String.mk (preFormat x)).data))) = preFormat x
    rw [show (String.mk (preFormat x)).data = preFormat x from rfl]
    rw [jsTrim_id hheadz hlastz]
    rw [show collapseSpaces (preFormat x) = collapseSpacesAux false (preFormat x) from rfl]
    rw [(collapseSpacesAux_id (preFormat x) hsz haz).1]
    rw [show collapsePunct (preFormat x) = collapsePunctAux false (preFormat x) from rfl]
    rw [(collapsePunctAux_id (preFormat x) hpz).1]
    rw [show upperBoundary (preFormat x) = upperBoundaryAux false (preFormat x) from rfl]
    rw [upperBoundaryAux_id (preFormat x) false hokz]
  rw [hfx]
  by_cases hznil : preFormat x = []
  · rw [hznil]
    decide
  · unfold formatLocationName
    rw [if_neg (show (String.mk (preFormat x)).data ≠ [] from hznil)]
    rw [hzz, e1, e2, e3]

/-- Witness for C4 (amended) at the accepted query `"London"`, on which
no abbreviation rule fires. -/
theorem formatLocationName_idempotent_without_abbrev_witness :
    ((validateLocationInput "London").isValid = true ∧
      hasWordToken 'S' 't' (preFormat "London") = false ∧
      hasWordToken 'M' 't' (preFormat "London") = false ∧
      hasWordToken 'F' 't' (preFormat "London") = false) ∧
    formatLocationName (formatLocationName "London") = formatLocationName "London" :=
  ⟨⟨by decide, by decide, by decide, by decide⟩,
   formatLocationName_idempotent_without_abbrev "London"
     (by decide) (by decide) (by decide) (by decide)⟩
